import Mathlib

/-!
# SharedMemoryUtils: messages, message queues and messengers

A shallow embedding of `src/SharedMemory.h` and `src/SharedMemory.cpp`.

* `std::string` and the interprocess `String` are Lean strings; a conversion through
  `c_str()` keeps the characters before the first NUL, as the C string constructors do.
* A C++ call that throws, has undefined behaviour or never returns becomes an
  `Except Fault _` value.
* `std::to_string( int32_t )` and `std::stoi` are embedded completely.  The float half of the
  standard library (`std::to_string( float )`, `std::stof`) is a parameter, `FloatLib`.
* The interprocess mutex of a queue is a lock bit.  The mutex is not recursive: a
  `scoped_lock` on a held mutex waits, and in a call that holds the mutex itself it never
  returns (`Fault.deadlock`).  Concurrent callers of `push_back` are an interleaving of the
  statements of the function (`PushState`).
* The operating system's table of named shared memory objects is the state `Shm`.
  Exhaustion of the memory of a segment is not part of the embedding.
-/

namespace SharedMemory

/-! ## Failures -/

/-- Ways in which a call of the library does not return a value. -/
inductive Fault where
  /-- Exception `SharedMemoryExcInvalidArgumentType` -/
  | InvalidArgumentType
  /-- Exception `SharedMemoryExcOutOfBounds` -/
  | OutOfBounds
  /-- Exception `std::invalid_argument`, thrown by `std::stoi` / `std::stof`: no conversion was possible -/
  | std_invalid_argument
  /-- Exception `std::out_of_range`, thrown by `std::stoi` / `std::stof`: the value does not fit -/
  | std_out_of_range
  /-- Undefined behaviour: an element access outside a container, or a use of a pointer
  that was never assigned -/
  | undefinedBehaviour
  /-- The call waits for ever for a mutex that is held -/
  | deadlock
  /-- Exception `boost::interprocess::interprocess_exception` of the arena layer -/
  | interprocess_exception
  deriving DecidableEq, Repr

/-- Equality of results is decidable. -/
instance instDecidableEqExcept {ε α : Type} [DecidableEq ε] [DecidableEq α] :
    DecidableEq (Except ε α)
  | .ok a, .ok b => if h : a = b then isTrue (by rw [h]) else isFalse (by intro e; cases e; exact h rfl)
  | .error a, .error b =>
    if h : a = b then isTrue (by rw [h]) else isFalse (by intro e; cases e; exact h rfl)
  | .ok _, .error _ => isFalse (by intro e; cases e)
  | .error _, .ok _ => isFalse (by intro e; cases e)

/-! ## Strings -/

/-- The NUL character that ends a C string. -/
def NUL : Char := Char.ofNat 0

/-- Characters of a `const char*` read up to, not including, the first NUL. -/
def c_chars (cs : List Char) : List Char := cs.takeWhile (fun c => c != NUL)

/-- Conversion `std::string( s.c_str() )` (also `String( s.c_str(), a )`): the characters of
`s` before its first NUL. -/
def c_str (s : String) : String := ⟨c_chars s.data⟩

/-! ## `std::to_string( int32_t )` and `std::stoi` -/

/-- Smallest `int32_t`. -/
def INT32_MIN : Int := -2147483648

/-- Largest `int32_t`. -/
def INT32_MAX : Int := 2147483647

/-- Membership in the range of `int32_t`. -/
def isInt32 (v : Int) : Prop := INT32_MIN ≤ v ∧ v ≤ INT32_MAX

/-- Membership in the range of `int32_t` is decidable. -/
instance instDecidableIsInt32 (v : Int) : Decidable (isInt32 v) := by
  unfold isInt32; infer_instance

/-- Decimal digit `d` (below ten) as a character. -/
def digitChar (d : Nat) : Char := Char.ofNat (48 + d)

/-- Digits of `n`, written from the last one backwards in front of `acc`; `fuel` bounds the
number of digits. -/
def natDigitsAux : Nat → Nat → List Char → List Char
  | 0, _, acc => acc
  | fuel + 1, n, acc =>
    let acc1 := digitChar (n % 10) :: acc
    if n / 10 = 0 then acc1 else natDigitsAux fuel (n / 10) acc1

/-- Decimal digits of a natural number, most significant first, no leading zero. -/
def natDigits (n : Nat) : List Char := natDigitsAux (n + 1) n []

/-- Text of `std::to_string( value )` for an `int32_t`: an optional minus sign and the decimal
digits. -/
def to_string (value : Int) : String :=
  if value < 0 then ⟨'-' :: natDigits value.natAbs⟩ else ⟨natDigits value.natAbs⟩

/-- Predicate `isspace` of the C locale. -/
def isspace (c : Char) : Bool := c.toNat == 32 || (9 ≤ c.toNat && c.toNat ≤ 13)

/-- Value of a run of decimal digits. -/
def digitsValue (ds : List Char) : Nat := ds.foldl (fun acc c => 10 * acc + (c.toNat - 48)) 0

/-- Optional sign at the head of a number: whether it is a minus, and the characters after
the sign. -/
def splitSign (cs : List Char) : Bool × List Char :=
  match cs with
  | '-' :: rest => (true, rest)
  | '+' :: rest => (false, rest)
  | _ => (false, cs)

/-- Function `std::stoi( str )` (base 10, no position output): `strtol` skips white space,
reads an optional sign and the longest run of digits; no digit gives `std::invalid_argument`,
a value outside `int` gives `std::out_of_range`. -/
def stoi (str : String) : Except Fault Int :=
  let cs := (c_chars str.data).dropWhile isspace
  let signed := splitSign cs
  let ds := signed.2.takeWhile Char.isDigit
  if ds.isEmpty then .error .std_invalid_argument
  else
    let v : Int := if signed.1 then -(digitsValue ds : Int) else (digitsValue ds : Int)
    if v < INT32_MIN ∨ INT32_MAX < v then .error .std_out_of_range else .ok v

/-! ## The float half of the standard library -/

/-- Standard library functions on `float` that the code calls. -/
structure FloatLib where
  /-- The type `float` -/
  Flt : Type
  /-- Function `std::to_string( float )` -/
  to_string : Flt → String
  /-- Function `std::stof( str )` -/
  stof : String → Except Fault Flt

/-- The text of a float has no NUL inside, `stof` reads it, and printing the float read
gives the same text again. -/
def FloatLib.Stable (L : FloatLib) : Prop :=
  ∀ f : L.Flt, c_str (L.to_string f) = L.to_string f ∧
    ∃ g : L.Flt, L.stof (L.to_string f) = .ok g ∧ L.to_string g = L.to_string f

/-- Six decimal digits of a number below one million. -/
def sixDigits (n : Nat) : List Char :=
  [digitChar (n / 100000 % 10), digitChar (n / 10000 % 10), digitChar (n / 1000 % 10),
   digitChar (n / 100 % 10), digitChar (n / 10 % 10), digitChar (n % 10)]

/-- Text of a number of millionths in the format `%f`: sign, whole part, point, six
digits. -/
def millionthsText (f : Int) : String :=
  let body := natDigits (f.natAbs / 1000000) ++ '.' :: sixDigits (f.natAbs % 1000000)
  if f < 0 then ⟨'-' :: body⟩ else ⟨body⟩

/-- Reads a decimal number as millionths: white space, an optional sign, digits, and after a
point up to six more digits; no digit at the start gives `std::invalid_argument`. -/
def millionthsRead (str : String) : Except Fault Int :=
  let cs := (c_chars str.data).dropWhile isspace
  let signed := splitSign cs
  let whole := signed.2.takeWhile Char.isDigit
  let rest := signed.2.dropWhile Char.isDigit
  let frac : List Char :=
    match rest with
    | '.' :: r => (r.takeWhile Char.isDigit).take 6
    | _ => []
  if whole.isEmpty then .error .std_invalid_argument
  else
    let n : Nat := digitsValue whole * 1000000 + digitsValue frac * 10 ^ (6 - frac.length)
    .ok (if signed.1 then -(n : Int) else (n : Int))

/-- A small instance of the float library: decimal numbers with six digits after the point,
held as a number of millionths and printed in the format `%f` of `std::to_string`. -/
def decimalLib : FloatLib :=
  { Flt := Int, to_string := millionthsText, stof := millionthsRead }

/-! ## Arg -/

/-- Enumeration `ArgType`. -/
inductive ArgType where
  | TYPE_NONE
  | TYPE_INT32
  | TYPE_FLOAT
  | TYPE_STRING
  | TYPE_INDEXOUTOFBOUNDS
  deriving DecidableEq, Repr

/-- Class `Arg`: a type tag and the value as text. -/
structure Arg where
  mType : ArgType
  mValue : String
  deriving DecidableEq, Repr

/-- Constructor `Arg( std::string value, a )`. -/
def Arg.ofString (value : String) : Arg := ⟨.TYPE_STRING, c_str value⟩

/-- Constructor `Arg( int32_t value, a )`. -/
def Arg.ofInt32 (value : Int) : Arg := ⟨.TYPE_INT32, c_str (to_string value)⟩

/-- Constructor `Arg( float value, a )`. -/
def Arg.ofFloat (L : FloatLib) (value : L.Flt) : Arg := ⟨.TYPE_FLOAT, c_str (L.to_string value)⟩

/-- Method `Arg::getType`. -/
def Arg.getType (a : Arg) : ArgType := a.mType

/-- Method `Arg::get`: `return mValue.c_str()`. -/
def Arg.get (a : Arg) : String := c_str a.mValue

/-! ## Message -/

/-- Class `Message`: an address and the arguments (the arena pointer `mMsm` only selects
where the memory comes from). -/
structure Message where
  mAddress : String
  mArgs : List Arg
  deriving DecidableEq, Repr

/-- Element access `v[index]` of a vector with an `int` index: the index is converted to the
unsigned size type, so a negative one lands beyond the end; outside the vector the access is
undefined. -/
def vectorAt {α : Type} (v : List α) (index : Int) : Except Fault α :=
  if 0 ≤ index then
    match v[index.toNat]? with
    | some a => .ok a
    | none => .error .undefinedBehaviour
  else .error .undefinedBehaviour

namespace Message

/-- Constructor `Message( address, msm )`. -/
def create (address : String) : Message := ⟨c_str address, []⟩

/-- Method `getAddress`: `return mAddress.c_str()`. -/
def getAddress (self : Message) : String := c_str self.mAddress

/-- Method `clear`. -/
def clear (self : Message) : Message := { self with mArgs := [], mAddress := "" }

/-- Method `getNumArgs`: `(int)mArgs.size()`; the size of a vector that fits in an arena is
far below `2^31`, so the conversion keeps the value. -/
def getNumArgs (self : Message) : Int := (self.mArgs.length : Int)

/-- Method `getArgType`. -/
def getArgType (self : Message) (index : Int) : Except Fault ArgType :=
  if index ≥ (self.mArgs.length : Int) then .error .OutOfBounds
  else (vectorAt self.mArgs index).map Arg.getType

/-- Method `getArgAsInt32`. -/
def getArgAsInt32 (self : Message) (index : Int) (typeConvert : Bool) :
    Except Fault Int := do
  if (← self.getArgType index) ≠ .TYPE_INT32 then
    if typeConvert && decide ((← self.getArgType index) = .TYPE_FLOAT) then
      stoi (← vectorAt self.mArgs index).get
    else
      .error .InvalidArgumentType
  else
    stoi (← vectorAt self.mArgs index).get

/-- Method `getArgAsFloat`. -/
def getArgAsFloat (L : FloatLib) (self : Message) (index : Int) (typeConvert : Bool) :
    Except Fault L.Flt := do
  if (← self.getArgType index) ≠ .TYPE_FLOAT then
    if typeConvert && decide ((← self.getArgType index) = .TYPE_INT32) then
      L.stof (← vectorAt self.mArgs index).get
    else
      .error .InvalidArgumentType
  else
    L.stof (← vectorAt self.mArgs index).get

/-- Method `getArgAsString`: `return mArgs[index].get()`, the flag is not read. -/
def getArgAsString (self : Message) (index : Int) (_typeConvert : Bool) :
    Except Fault String := do
  return (← vectorAt self.mArgs index).get

/-- Method `addIntArg`. -/
def addIntArg (self : Message) (argument : Int) : Message :=
  { self with mArgs := self.mArgs ++ [Arg.ofInt32 argument] }

/-- Method `addFloatArg`. -/
def addFloatArg (L : FloatLib) (self : Message) (argument : L.Flt) : Message :=
  { self with mArgs := self.mArgs ++ [Arg.ofFloat L argument] }

/-- Method `addStringArg`. -/
def addStringArg (self : Message) (argument : String) : Message :=
  { self with mArgs := self.mArgs ++ [Arg.ofString argument] }

/-- One turn of the loop of `copy`: the argument `i` of `other` is read through the typed
getter of its type and a new `Arg` made from the value is pushed onto `self`. -/
def copyArg (L : FloatLib) (other : Message) (self : Message) (i : Nat) :
    Except Fault Message := do
  let argType ← other.getArgType i
  if argType = .TYPE_INT32 then
    let v ← other.getArgAsInt32 i false
    return { self with mArgs := self.mArgs ++ [Arg.ofInt32 v] }
  else if argType = .TYPE_FLOAT then
    let v ← other.getArgAsFloat L i false
    return { self with mArgs := self.mArgs ++ [Arg.ofFloat L v] }
  else if argType = .TYPE_STRING then
    let v ← other.getArgAsString i false
    return { self with mArgs := self.mArgs ++ [Arg.ofString v] }
  else
    .error .InvalidArgumentType

/-- Method `copy` (also `operator=`): the address is assigned, then every argument of
`other` is pushed onto the arguments `self` already has. -/
def copy (L : FloatLib) (self other : Message) : Except Fault Message :=
  (List.range other.mArgs.length).foldlM (copyArg L other)
    { self with mAddress := other.mAddress }

end Message

/-! ## Messages that the interface can build -/

/-- An `Arg` made by one of the three constructors of the class (a message never calls
`setType` or `set`). -/
def Arg.Built (L : FloatLib) (a : Arg) : Prop :=
  (∃ s : String, a = Arg.ofString s) ∨ (∃ v : Int, isInt32 v ∧ a = Arg.ofInt32 v) ∨
    (∃ f : L.Flt, a = Arg.ofFloat L f)

/-- A message all of whose arguments were made by the constructors of `Arg`. -/
def Message.WF (L : FloatLib) (m : Message) : Prop := ∀ a ∈ m.mArgs, a.Built L

/-- One call of `addIntArg`, `addFloatArg` or `addStringArg`. -/
inductive AddCall (L : FloatLib) where
  | addIntArg (argument : Int)
  | addFloatArg (argument : L.Flt)
  | addStringArg (argument : String)

/-- The type that the call gives to the argument it adds. -/
def AddCall.argType {L : FloatLib} : AddCall L → ArgType
  | .addIntArg _ => .TYPE_INT32
  | .addFloatArg _ => .TYPE_FLOAT
  | .addStringArg _ => .TYPE_STRING

/-- Performs the call on a message. -/
def AddCall.run {L : FloatLib} (m : Message) : AddCall L → Message
  | .addIntArg v => m.addIntArg v
  | .addFloatArg f => m.addFloatArg L f
  | .addStringArg s => m.addStringArg s

/-- The message `m1` is `m` with one more argument, of type `t`, after the ones of `m`: the
count grows by one, the new last position has type `t`, the address and every earlier
argument (type and stored text) are the ones of `m`. -/
def AppendsOne (m m1 : Message) (t : ArgType) : Prop :=
  m1.getNumArgs = m.getNumArgs + 1 ∧
  m1.getArgType m.getNumArgs = .ok t ∧
  m1.mAddress = m.mAddress ∧
  ∀ i : Nat, i < m.mArgs.length →
    m1.mArgs[i]? = m.mArgs[i]? ∧ m1.getArgType i = m.getArgType i

/-! ## MessageQueue -/

/-- Class `MessageQueue`: the deque of messages and the mutex (`true` while it is held). -/
structure MessageQueue where
  mMessages : List Message
  mMutex : Bool
  deriving DecidableEq, Repr

namespace MessageQueue

/-- Constructor `MessageQueue( a )`: no message, the mutex free. -/
def create : MessageQueue := ⟨[], false⟩

/-- Constructor of `scoped_lock`: takes the mutex; on a held mutex it never returns. -/
def lock (self : MessageQueue) : Except Fault MessageQueue :=
  if self.mMutex then .error .deadlock else .ok { self with mMutex := true }

/-- Destructor of `scoped_lock`: releases the mutex. -/
def unlock (self : MessageQueue) : MessageQueue := { self with mMutex := false }

/-- Method `push_back`: the deque stores a copy of `message` made by the implicit copy
constructor (member by member). -/
def push_back (self : MessageQueue) (message : Message) : Except Fault MessageQueue := do
  let q ← self.lock
  let q := { q with mMessages := q.mMessages ++ [message] }
  return q.unlock

/-- Method `front`: the first element; undefined on an empty deque. -/
def front (self : MessageQueue) : Except Fault (Message × MessageQueue) := do
  let q ← self.lock
  match q.mMessages with
  | [] => .error .undefinedBehaviour
  | m :: _ => return (m, q.unlock)

/-- Method `pop_front`: removes the first element; undefined on an empty deque. -/
def pop_front (self : MessageQueue) : Except Fault MessageQueue := do
  let q ← self.lock
  match q.mMessages with
  | [] => .error .undefinedBehaviour
  | _ :: rest => return ({ q with mMessages := rest }).unlock

/-- Method `size`. -/
def size (self : MessageQueue) : Except Fault (Nat × MessageQueue) := do
  let q ← self.lock
  return (q.mMessages.length, q.unlock)

/-- Method `getFrontAddress`: takes the mutex, then calls `size()`, which takes it again. -/
def getFrontAddress (self : MessageQueue) : Except Fault (String × MessageQueue) := do
  let q ← self.lock
  let (n, q) ← q.size
  if n ≠ 0 then
    match q.mMessages with
    | [] => .error .undefinedBehaviour
    | m :: _ => return (m.getAddress, q.unlock)
  else
    return ("", q.unlock)

/-- Pushes the messages of a list in order. -/
def pushAll (self : MessageQueue) (messages : List Message) : Except Fault MessageQueue :=
  messages.foldlM push_back self

/-- Consumer loop `while( q.size() ) { out.push_back( q.front() ); q.pop_front(); }`, at most
`fuel` turns; the result is the list of the messages seen and the queue left. -/
def drain : Nat → MessageQueue → Except Fault (List Message × MessageQueue)
  | 0, q => .ok ([], q)
  | fuel + 1, q => do
    let (n, q) ← q.size
    if n = 0 then
      return ([], q)
    else
      let (m, q) ← q.front
      let q ← q.pop_front
      let (rest, q) ← drain fuel q
      return (m :: rest, q)

end MessageQueue

/-! ## The arena layer -/

/-- Pointer `MessageQueue*`: never assigned, null, or the address of the object `name` of
the mapped segment `segment`. -/
inductive QueuePtr where
  | indeterminate
  | null
  | object (segment : Nat) (name : String)
  deriving DecidableEq, Repr

/-- A managed shared memory segment: its named objects, in order of construction. -/
structure Segment where
  objects : List (String × MessageQueue)
  deriving DecidableEq, Repr

/-- Shared memory of the machine: `segments` are the segments created so far (a mapping is
the position in the list; a segment stays mapped after its name is removed), `names` is the
operating system's table from names to segments. -/
structure Shm where
  segments : List Segment
  names : List (String × Nat)
  deriving DecidableEq, Repr

/-- Replaces the value of the first object called `name`, the one `List.lookup` finds. -/
def setObject (name : String) (q : MessageQueue) :
    List (String × MessageQueue) → List (String × MessageQueue)
  | [] => []
  | p :: ps => if name == p.1 then (p.1, q) :: ps else p :: setObject name q ps

namespace Shm

/-- Function `shared_memory_object::remove( name )`: unregisters the name, never throws. -/
def remove (w : Shm) (name : String) : Shm :=
  { w with names := w.names.filter (fun p => p.1 != name) }

/-- Constructor `Msm( create_only, name, size )`: throws when the name is registered or when
the operating system refuses (`denied`); otherwise maps a new segment without objects. -/
def create_only (w : Shm) (denied : Bool) (name : String) : Except Fault (Nat × Shm) :=
  if denied || (w.names.lookup name).isSome then .error .interprocess_exception
  else .ok (w.segments.length,
    { segments := w.segments ++ [⟨[]⟩], names := w.names ++ [(name, w.segments.length)] })

/-- Constructor `Msm( open_only, name )`: throws when the name is not registered or when the
operating system refuses (`denied`); otherwise maps the segment. -/
def open_only (w : Shm) (denied : Bool) (name : String) : Except Fault (Nat × Shm) :=
  if denied then .error .interprocess_exception
  else
    match w.names.lookup name with
    | none => .error .interprocess_exception
    | some h => .ok (h, w)

/-- Object `name` of the mapped segment `seg`, read through a pointer; a pointer to nothing
is undefined. -/
def load (w : Shm) (seg : Nat) (name : String) : Except Fault MessageQueue :=
  match w.segments[seg]? with
  | none => .error .undefinedBehaviour
  | some s =>
    match s.objects.lookup name with
    | none => .error .undefinedBehaviour
    | some q => .ok q

/-- Writes the object `name` of the mapped segment `seg`. -/
def store (w : Shm) (seg : Nat) (name : String) (q : MessageQueue) : Shm :=
  { w with segments := w.segments.modify (fun s => ⟨setObject name q s.objects⟩) seg }

/-- Call `find< MessageQueue >( name ).first`: the address of the object, null when the
segment has none of that name. -/
def find (w : Shm) (seg : Nat) (name : String) : QueuePtr :=
  match w.segments[seg]? with
  | none => .null
  | some s => if (s.objects.lookup name).isSome then .object seg name else .null

/-- Call `find_or_construct< MessageQueue >( name )( a )`: the address of the object of that
name, constructed at the end of the segment when there is none. -/
def find_or_construct (w : Shm) (seg : Nat) (name : String) : QueuePtr × Shm :=
  match w.find seg name with
  | .object s n => (.object s n, w)
  | _ =>
    let construct : Segment → Segment := fun s => ⟨s.objects ++ [(name, MessageQueue.create)]⟩
    (.object seg name, { w with segments := w.segments.modify construct seg })

/-- Call `p->f()` of a queue method through a pointer that was compared with `NULL` first:
an unassigned pointer is undefined, a null one takes the `whenNull` branch. -/
def call {α : Type} (w : Shm) (p : QueuePtr) (whenNull : α)
    (f : MessageQueue → Except Fault (α × MessageQueue)) : Except Fault (α × Shm) :=
  match p with
  | .indeterminate => .error .undefinedBehaviour
  | .null => .ok (whenNull, w)
  | .object seg name => do
    let q ← w.load seg name
    let (a, q) ← f q
    return (a, w.store seg name q)

end Shm

/-! ## Messenger -/

/-- Class `Messenger`; `mMsm` is the mapping of the segment, `none` for a default constructed
`Msm`. -/
structure Messenger where
  mMsm : Option Nat
  mSegmentName : String
  mIn : QueuePtr
  mOut : QueuePtr
  mShouldReleaseMemory : Bool
  deriving DecidableEq, Repr

namespace Messenger

/-- Constructor `Messenger( segmentName, shouldReleaseMemory )`: `mIn` and `mOut` have no
initializer. -/
def create (segmentName : String) (shouldReleaseMemory : Bool) : Messenger :=
  { mMsm := none, mSegmentName := segmentName, mIn := .indeterminate, mOut := .indeterminate,
    mShouldReleaseMemory := shouldReleaseMemory }

/-- Function `Messenger::createServer`; the result is the `MessengerRef` (`none` is the null
handle) and the shared memory afterwards.  `denied` says that the operating system refuses to
create the segment. -/
def createServer (segmentName : String) (denied : Bool) (w : Shm) : Option Messenger × Shm :=
  -- MessengerRef ref;
  let w := w.remove (c_str segmentName)
  let ref := Messenger.create segmentName true
  match w.create_only denied (c_str segmentName) with
  | .error _ => (some ref, w)
  | .ok (h, w) =>
    let ref := { ref with mMsm := some h }
    let (pIn, w) := w.find_or_construct h "Clients"
    let ref := { ref with mIn := pIn }
    let (pOut, w) := w.find_or_construct h "Server"
    let ref := { ref with mOut := pOut }
    (some ref, w)

/-- Function `Messenger::createClient`.  `denied` says that the operating system refuses to
open the segment. -/
def createClient (segmentName : String) (denied : Bool) (w : Shm) : Option Messenger × Shm :=
  -- MessengerRef ref;
  let ref := Messenger.create segmentName false
  match w.open_only denied (c_str segmentName) with
  | .error _ => (some ref, w)
  | .ok (h, w) =>
    let ref := { ref with mMsm := some h }
    let ref := { ref with mIn := w.find h "Server" }
    let ref := { ref with mOut := w.find h "Clients" }
    (some ref, w)

/-- Destructor `~Messenger`. -/
def destroy (self : Messenger) (w : Shm) : Shm :=
  if self.mShouldReleaseMemory then w.remove (c_str self.mSegmentName) else w

/-- Method `hasMessageWaiting`. -/
def hasMessageWaiting (self : Messenger) (w : Shm) : Except Fault (Bool × Shm) :=
  w.call self.mIn false (fun q => do
    let (n, q) ← q.size
    return (n != 0, q))

/-- Method `getNumMessages`. -/
def getNumMessages (self : Messenger) (w : Shm) : Except Fault (Nat × Shm) :=
  w.call self.mIn 0 (fun q => q.size)

/-- Method `getFrontMessage`. -/
def getFrontMessage (L : FloatLib) (self : Messenger) (w : Shm) :
    Except Fault (Message × Shm) := do
  let m := Message.create ""
  match self.mIn with
  | .indeterminate => .error .undefinedBehaviour
  | .null => return (m, w)
  | .object seg name =>
    let q ← w.load seg name
    let (head, q) ← q.front
    let m ← m.copy L head
    let q ← q.pop_front
    return (m, w.store seg name q)

/-- Method `getFrontAddress`. -/
def getFrontAddress (self : Messenger) (w : Shm) : Except Fault (String × Shm) :=
  w.call self.mIn "" (fun q => q.getFrontAddress)

/-- Method `createMessage`. -/
def createMessage (_self : Messenger) (address : String) : Message := Message.create address

/-- Method `sendMessage`. -/
def sendMessage (self : Messenger) (message : Message) (w : Shm) : Except Fault Shm := do
  let (_, w) ← w.call self.mOut () (fun q => do
    let q ← q.push_back message
    return ((), q))
  return w

end Messenger

/-! ## Predicates used in the statements and proofs -/

/-- A list of decimal digit characters. -/
def AllDigits (ds : List Char) : Prop := ∀ c ∈ ds, ∃ d, d < 10 ∧ c = digitChar d

/-- The list is empty or starts with a character that is not a digit. -/
def NoDigitHead (r : List Char) : Prop := ∀ c ∈ r.head?, c.isDigit = false

/-- An arena "x" whose queue "Server" holds two messages. -/
def twoWaiting : Shm :=
  { segments := [⟨[("Clients", MessageQueue.create),
      ("Server", ⟨[(Message.create "a").addIntArg 42, Message.create "b"], false⟩)]⟩],
    names := [("x", 0)] }

/-- The function `stof` of the library fails only with the two exceptions the standard gives
it, `std::invalid_argument` and `std::out_of_range`. -/
def FloatLib.StdErrors (L : FloatLib) : Prop :=
  ∀ (s : String) (e : Fault), L.stof s = .error e →
    e = .std_invalid_argument ∨ e = .std_out_of_range

/-- An arena "x" left by an earlier session, with messages in both queues. -/
def usedArena : Shm :=
  { segments := [⟨[("Clients", ⟨[Message.create "a", Message.create "b"], false⟩),
      ("Server", ⟨[(Message.create "c").addIntArg 1], false⟩)]⟩],
    names := [("x", 0)] }

/-- An arena "y" in which no queue was constructed. -/
def bareArena : Shm := { segments := [⟨[]⟩], names := [("y", 0)] }

/-! ## Concurrent callers of `push_back`

Several threads or processes run `MessageQueue::push_back` on one queue.  A run is an
interleaving of their steps; the steps of one caller are the statements of the function:
the constructor of the `scoped_lock`, the `push_back` of the deque (a read of the deque and
a write of the deque with the message appended, so that two callers inside it at once would
lose a message), and the destructor of the `scoped_lock`. -/

/-- Place of a caller in `MessageQueue::push_back`. -/
inductive PushPc where
  /-- Before the constructor of the `scoped_lock` -/
  | start
  /-- Holding the mutex, before the deque is read -/
  | locked
  /-- The deque was read as `seen`, the new deque is not written yet -/
  | reading (seen : List Message)
  /-- The deque is written, the mutex still held -/
  | written
  /-- Returned -/
  | done
  deriving DecidableEq, Repr

/-- The caller is between the constructor and the destructor of its `scoped_lock`. -/
def PushPc.holds : PushPc → Bool
  | .locked => true
  | .reading _ => true
  | .written => true
  | _ => false

/-- The caller has written its message to the deque. -/
def PushPc.pushed : PushPc → Bool
  | .written => true
  | .done => true
  | _ => false

/-- Number of steps the caller still has to take. -/
def PushPc.remaining : PushPc → Nat
  | .start => 4
  | .locked => 3
  | .reading _ => 2
  | .written => 1
  | .done => 0

/-- A caller of `push_back( message )`. -/
structure Pusher where
  message : Message
  pc : PushPc
  deriving DecidableEq, Repr

/-- Next step of one caller on the queue; `none` when it cannot move: it waits for the mutex
or it has returned. -/
def Pusher.step (p : Pusher) (q : MessageQueue) : Option (Pusher × MessageQueue) :=
  match p.pc with
  | .start =>
    match q.lock with
    | .ok q1 => some ({ p with pc := .locked }, q1)
    | .error _ => none
  | .locked => some ({ p with pc := .reading q.mMessages }, q)
  | .reading seen =>
    some ({ p with pc := .written }, { q with mMessages := seen ++ [p.message] })
  | .written => some ({ p with pc := .done }, q.unlock)
  | .done => none

/-- The queue and its callers. -/
structure PushState where
  queue : MessageQueue
  pushers : List Pusher
  deriving DecidableEq, Repr

namespace PushState

/-- One caller for each message, none of them started. -/
def init (q : MessageQueue) (messages : List Message) : PushState :=
  ⟨q, messages.map (fun m => ⟨m, .start⟩)⟩

/-- The scheduler lets caller `t` take its next step; nothing happens when it cannot move. -/
def step (s : PushState) (t : Nat) : PushState :=
  match s.pushers[t]? with
  | none => s
  | some p =>
    match p.step s.queue with
    | none => s
    | some (p1, q1) => ⟨q1, s.pushers.set t p1⟩

/-- An interleaving: the callers step in the order of the schedule. -/
def run (s : PushState) (schedule : List Nat) : PushState := schedule.foldl step s

/-- Caller `t` can move. -/
def enabled (s : PushState) (t : Nat) : Bool :=
  match s.pushers[t]? with
  | none => false
  | some p => (p.step s.queue).isSome

/-- Every caller has returned. -/
def finished (s : PushState) : Bool := s.pushers.all (fun p => decide (p.pc = .done))

/-- Steps that the callers still have to take. -/
def remaining (s : PushState) : Nat := (s.pushers.map (fun p => p.pc.remaining)).sum

/-- What holds in every state of a run that started from the queue `⟨base, false⟩`: the
callers are the ones of `messages`; the mutex is held exactly when one caller is inside, and
no two are; a caller that has read the deque has read what it holds now; the deque holds
`base` and the messages of the callers that have written, each once. -/
def Inv (base messages : List Message) (s : PushState) : Prop :=
  s.pushers.map Pusher.message = messages ∧
  s.pushers.countP (fun p => p.pc.holds) = (if s.queue.mMutex then 1 else 0) ∧
  (∀ p ∈ s.pushers, ∀ seen, p.pc = .reading seen → seen = s.queue.mMessages) ∧
  s.queue.mMessages.Perm
    (base ++ (s.pushers.filter (fun p => p.pc.pushed)).map Pusher.message)

end PushState

/-! ## Decimal text of integers -/

theorem digitChar_toNat (d : Nat) (h : d < 10) : (digitChar d).toNat = 48 + d := by
  interval_cases d <;> rfl

theorem digitChar_isDigit (d : Nat) (h : d < 10) : (digitChar d).isDigit = true := by
  interval_cases d <;> rfl

theorem digitChar_ne_NUL (d : Nat) (h : d < 10) : (digitChar d != NUL) = true := by
  interval_cases d <;> rfl

theorem digitChar_not_space (d : Nat) (h : d < 10) : isspace (digitChar d) = false := by
  interval_cases d <;> rfl

theorem digitsValue_append_digit (ds : List Char) (d : Nat) (h : d < 10) :
    digitsValue (ds ++ [digitChar d]) = 10 * digitsValue ds + d := by
  simp [digitsValue, List.foldl_append, digitChar_toNat d h]

theorem natDigitsAux_spec (fuel : Nat) : ∀ (n : Nat) (acc : List Char), n < fuel →
    ∃ ds, natDigitsAux fuel n acc = ds ++ acc ∧ ds ≠ [] ∧ AllDigits ds ∧ digitsValue ds = n := by
  induction fuel with
  | zero => intro n acc h; omega
  | succ fuel ih =>
    intro n acc h
    have hd : n % 10 < 10 := Nat.mod_lt _ (by decide)
    by_cases h0 : n / 10 = 0
    · refine ⟨[digitChar (n % 10)], ?_, by simp, ?_, ?_⟩
      · simp [natDigitsAux, h0]
      · intro c hc
        simp at hc
        exact ⟨n % 10, hd, hc⟩
      · have := digitsValue_append_digit [] (n % 10) hd
        simp [digitsValue] at this
        simp [digitsValue, this]
        omega
    · have hlt : n / 10 < fuel := by omega
      obtain ⟨ds, h1, _, h3, h4⟩ := ih (n / 10) (digitChar (n % 10) :: acc) hlt
      refine ⟨ds ++ [digitChar (n % 10)], ?_, by simp, ?_, ?_⟩
      · simp [natDigitsAux, h0, h1]
      · intro c hc
        rcases List.mem_append.mp hc with hc | hc
        · exact h3 c hc
        · simp at hc
          exact ⟨n % 10, hd, hc⟩
      · rw [digitsValue_append_digit ds _ hd, h4]
        omega

theorem natDigits_spec (n : Nat) :
    natDigits n ≠ [] ∧ AllDigits (natDigits n) ∧ digitsValue (natDigits n) = n := by
  obtain ⟨ds, h1, h2, h3, h4⟩ := natDigitsAux_spec (n + 1) n [] (by omega)
  simp at h1
  simp only [natDigits, h1]
  exact ⟨h2, h3, h4⟩

theorem c_chars_append (l r : List Char) (h : ∀ c ∈ l, (c != NUL) = true) :
    c_chars (l ++ r) = l ++ c_chars r := by
  induction l with
  | nil => rfl
  | cons a l ih =>
    have ha := h a (by simp)
    have := ih (fun c hc => h c (by simp [hc]))
    simp only [c_chars] at this ⊢
    simp [List.takeWhile_cons, ha, this]

theorem c_chars_eq_self (l : List Char) (h : ∀ c ∈ l, (c != NUL) = true) : c_chars l = l := by
  have := c_chars_append l [] h
  simpa [c_chars] using this

theorem c_chars_idem (l : List Char) : c_chars (c_chars l) = c_chars l := by
  apply c_chars_eq_self
  intro c hc
  have hc1 : c ∈ l.takeWhile (fun c => c != NUL) := hc
  exact List.mem_takeWhile_imp (p := fun c => c != NUL) hc1

theorem c_str_idem (s : String) : c_str (c_str s) = c_str s := by
  simp [c_str, c_chars_idem]

theorem AllDigits.ne_NUL {ds : List Char} (h : AllDigits ds) : ∀ c ∈ ds, (c != NUL) = true := by
  intro c hc
  obtain ⟨d, hd, rfl⟩ := h c hc
  exact digitChar_ne_NUL d hd

theorem NoDigitHead.of_c_chars {r : List Char} (h : NoDigitHead r) : NoDigitHead (c_chars r) := by
  cases r with
  | nil => exact h
  | cons a r =>
    by_cases ha : (a != NUL) = true
    · simpa [NoDigitHead, SharedMemory.c_chars, List.takeWhile_cons, ha] using h
    · simp [NoDigitHead, SharedMemory.c_chars, List.takeWhile_cons, ha]

theorem takeWhile_isDigit_append (ds r : List Char) (h : AllDigits ds) (hr : NoDigitHead r) :
    (ds ++ r).takeWhile Char.isDigit = ds := by
  induction ds with
  | nil =>
    cases r with
    | nil => rfl
    | cons a r =>
      have : a.isDigit = false := hr a (by simp)
      simp [List.takeWhile_cons, this]
  | cons a ds ih =>
    obtain ⟨d, hd, rfl⟩ := h _ (List.mem_cons_self _ _)
    have := ih (fun c hc => h c (List.mem_cons_of_mem _ hc))
    simp [List.takeWhile_cons, digitChar_isDigit d hd, this]

theorem splitSign_digit (d : Nat) (hd : d < 10) (tl : List Char) :
    splitSign (digitChar d :: tl) = (false, digitChar d :: tl) := by
  interval_cases d <;> rfl

theorem dropWhile_isspace_digit (d : Nat) (hd : d < 10) (tl : List Char) :
    (digitChar d :: tl).dropWhile isspace = digitChar d :: tl := by
  simp [List.dropWhile_cons, digitChar_not_space d hd]

/-- Reading with `stoi` a text made of an optional minus sign, digits, and a rest that does
not start with a digit. -/
theorem stoi_signed_digits (neg : Bool) (ds r : List Char) (h : AllDigits ds) (hne : ds ≠ [])
    (hr : NoDigitHead r)
    (hrange : isInt32 (if neg then -(digitsValue ds : Int) else (digitsValue ds : Int))) :
    stoi ⟨if neg then '-' :: (ds ++ r) else ds ++ r⟩ =
      .ok (if neg then -(digitsValue ds : Int) else (digitsValue ds : Int)) := by
  obtain ⟨a, tl, rfl⟩ := List.exists_cons_of_ne_nil hne
  obtain ⟨d, hd, rfl⟩ := h _ (List.mem_cons_self _ _)
  have htake := takeWhile_isDigit_append _ _ h hr.of_c_chars
  have hc : c_chars ((digitChar d :: tl) ++ r) = (digitChar d :: tl) ++ c_chars r :=
    c_chars_append _ _ h.ne_NUL
  obtain ⟨h1, h2⟩ := hrange
  cases neg with
  | false =>
    have h1' : ¬ ((digitsValue (digitChar d :: tl) : Int) < INT32_MIN) :=
      not_lt.mpr (by simpa using h1)
    have h2' : ¬ (INT32_MAX < (digitsValue (digitChar d :: tl) : Int)) :=
      not_lt.mpr (by simpa using h2)
    simp only [stoi, Bool.false_eq_true, if_false, hc]
    rw [List.cons_append, dropWhile_isspace_digit d hd, splitSign_digit d hd]
    simp only [← List.cons_append, htake]
    simp [h1', h2']
  | true =>
    have h1' : ¬ (-(digitsValue (digitChar d :: tl) : Int) < INT32_MIN) :=
      not_lt.mpr (by simpa using h1)
    have h2' : ¬ (INT32_MAX < -(digitsValue (digitChar d :: tl) : Int)) :=
      not_lt.mpr (by simpa using h2)
    have hc2 : c_chars ('-' :: ((digitChar d :: tl) ++ r)) =
        '-' :: ((digitChar d :: tl) ++ c_chars r) := by
      have := c_chars_append ['-'] ((digitChar d :: tl) ++ r)
        (by intro c hc; simp at hc; subst hc; rfl)
      rw [hc] at this
      exact this
    have hds : ('-' :: ((digitChar d :: tl) ++ c_chars r)).dropWhile isspace =
        '-' :: ((digitChar d :: tl) ++ c_chars r) := by
      rw [List.dropWhile_cons]
      rfl
    have hss : splitSign ('-' :: ((digitChar d :: tl) ++ c_chars r)) =
        (true, (digitChar d :: tl) ++ c_chars r) := rfl
    simp only [stoi, if_true, hc2, hds, hss, htake]
    simp [h1', h2']

theorem to_string_data (v : Int) :
    to_string v = ⟨if decide (v < 0) then '-' :: (natDigits v.natAbs ++ [])
      else natDigits v.natAbs ++ []⟩ := by
  unfold to_string
  by_cases h : v < 0 <;> simp [h]

theorem c_str_to_string (v : Int) : c_str (to_string v) = to_string v := by
  have hd := (natDigits_spec v.natAbs).2.1.ne_NUL
  unfold to_string c_str
  by_cases h : v < 0
  · simp only [h, if_true]
    congr 1
    apply c_chars_eq_self
    intro c hc
    rcases List.mem_cons.mp hc with rfl | hc
    · rfl
    · exact hd c hc
  · simp only [h, if_false]
    congr 1
    exact c_chars_eq_self _ hd

/-- Round trip of the decimal text: `stoi` reads back every `int32_t` printed by
`to_string`. -/
theorem stoi_to_string (v : Int) (hv : isInt32 v) : stoi (to_string v) = .ok v := by
  obtain ⟨hne, hall, hval⟩ := natDigits_spec v.natAbs
  have key : (if decide (v < 0) then -(digitsValue (natDigits v.natAbs) : Int)
      else (digitsValue (natDigits v.natAbs) : Int)) = v := by
    rw [hval]
    by_cases h : v < 0
    · rw [if_pos (by simpa using h)]; omega
    · rw [if_neg (by simpa using h)]; omega
  have := stoi_signed_digits (decide (v < 0)) (natDigits v.natAbs) [] hall hne
    (by intro c hc; simp at hc) (by rw [key]; exact hv)
  rw [key] at this
  rw [to_string_data]
  exact this

/-! ## The sample float library -/

theorem dropWhile_isDigit_append (ds r : List Char) (h : AllDigits ds) (hr : NoDigitHead r) :
    (ds ++ r).dropWhile Char.isDigit = r := by
  induction ds with
  | nil =>
    cases r with
    | nil => rfl
    | cons a r =>
      have : a.isDigit = false := hr a (by simp)
      simp [List.dropWhile_cons, this]
  | cons a ds ih =>
    obtain ⟨d, hd, rfl⟩ := h _ (List.mem_cons_self _ _)
    have := ih (fun c hc => h c (List.mem_cons_of_mem _ hc))
    simp [List.dropWhile_cons, digitChar_isDigit d hd, this]

theorem sixDigits_allDigits (n : Nat) : AllDigits (sixDigits n) := by
  intro c hc
  simp only [sixDigits, List.mem_cons, List.mem_singleton, List.not_mem_nil, or_false] at hc
  rcases hc with h | h | h | h | h | h <;> exact ⟨_, Nat.mod_lt _ (by decide), h⟩

theorem digitsValue_sixDigits (n : Nat) (h : n < 1000000) : digitsValue (sixDigits n) = n := by
  have e : ∀ d, d < 10 → (digitChar d).toNat - 48 = d := by
    intro d hd; rw [digitChar_toNat d hd]; omega
  simp only [digitsValue, sixDigits, List.foldl_cons, List.foldl_nil]
  rw [e _ (Nat.mod_lt _ (by decide)), e _ (Nat.mod_lt _ (by decide)),
    e _ (Nat.mod_lt _ (by decide)), e _ (Nat.mod_lt _ (by decide)),
    e _ (Nat.mod_lt _ (by decide)), e _ (Nat.mod_lt _ (by decide))]
  omega

theorem millionthsRead_text (f : Int) : millionthsRead (millionthsText f) = .ok f := by
  obtain ⟨hne, hall, hval⟩ := natDigits_spec (f.natAbs / 1000000)
  have hb : f.natAbs % 1000000 < 1000000 := Nat.mod_lt _ (by decide)
  have hsix := sixDigits_allDigits (f.natAbs % 1000000)
  have hsv := digitsValue_sixDigits _ hb
  have hlen : (sixDigits (f.natAbs % 1000000)).length = 6 := rfl
  have hpoint : NoDigitHead ('.' :: sixDigits (f.natAbs % 1000000)) := by
    intro c hc; simp at hc; subst hc; rfl
  have hbody : ∀ c ∈ natDigits (f.natAbs / 1000000) ++ '.' :: sixDigits (f.natAbs % 1000000),
      (c != NUL) = true := by
    intro c hc
    rcases List.mem_append.mp hc with hc | hc
    · exact hall.ne_NUL c hc
    · rcases List.mem_cons.mp hc with rfl | hc
      · rfl
      · exact hsix.ne_NUL c hc
  have htw := takeWhile_isDigit_append _ _ hall hpoint
  have hdw := dropWhile_isDigit_append _ _ hall hpoint
  have hfrac : ((sixDigits (f.natAbs % 1000000)).takeWhile Char.isDigit).take 6 =
      sixDigits (f.natAbs % 1000000) := by
    have := takeWhile_isDigit_append _ [] hsix (by intro c hc; simp at hc)
    rw [List.append_nil] at this
    rw [this]
    rfl
  obtain ⟨a, tl, hcons⟩ := List.exists_cons_of_ne_nil hne
  obtain ⟨d, hd, ha⟩ := hall a (by rw [hcons]; exact List.mem_cons_self _ _)
  subst ha
  have hnn : (digitChar d :: tl ++ '.' :: sixDigits (f.natAbs % 1000000)).isEmpty = false := rfl
  by_cases hneg : f < 0
  · have hc : c_chars ('-' :: (natDigits (f.natAbs / 1000000) ++
        '.' :: sixDigits (f.natAbs % 1000000))) =
        '-' :: (natDigits (f.natAbs / 1000000) ++ '.' :: sixDigits (f.natAbs % 1000000)) := by
      apply c_chars_eq_self
      intro c hc
      rcases List.mem_cons.mp hc with rfl | hc
      · rfl
      · exact hbody c hc
    have hds : ∀ l, ('-' :: l).dropWhile isspace = '-' :: l := by
      intro l; rw [List.dropWhile_cons]; rfl
    have hss : ∀ l, splitSign ('-' :: l) = (true, l) := fun _ => rfl
    simp only [millionthsRead, millionthsText, hneg, if_true, hc, hds, hss, htw, hdw, hfrac,
      hval, hsv, hlen]
    rw [hcons]
    simp only [List.isEmpty_cons, Bool.false_eq_true, if_false]
    congr 1
    omega
  · have hc := c_chars_eq_self _ hbody
    have hds : (natDigits (f.natAbs / 1000000) ++ '.' :: sixDigits (f.natAbs % 1000000)).dropWhile
        isspace = natDigits (f.natAbs / 1000000) ++ '.' :: sixDigits (f.natAbs % 1000000) := by
      rw [hcons, List.cons_append, dropWhile_isspace_digit d hd]
    have hss : splitSign (natDigits (f.natAbs / 1000000) ++ '.' :: sixDigits (f.natAbs % 1000000)) =
        (false, natDigits (f.natAbs / 1000000) ++ '.' :: sixDigits (f.natAbs % 1000000)) := by
      rw [hcons, List.cons_append, splitSign_digit d hd]
    simp only [millionthsRead, millionthsText, hneg, if_false, hc, hds, hss, htw, hdw, hfrac,
      hval, hsv, hlen]
    rw [hcons]
    simp only [List.isEmpty_cons, Bool.false_eq_true, if_false]
    congr 1
    omega

theorem c_str_millionthsText (f : Int) : c_str (millionthsText f) = millionthsText f := by
  have hall := (natDigits_spec (f.natAbs / 1000000)).2.1
  have hsix := sixDigits_allDigits (f.natAbs % 1000000)
  have hbody : ∀ c ∈ natDigits (f.natAbs / 1000000) ++ '.' :: sixDigits (f.natAbs % 1000000),
      (c != NUL) = true := by
    intro c hc
    rcases List.mem_append.mp hc with hc | hc
    · exact hall.ne_NUL c hc
    · rcases List.mem_cons.mp hc with rfl | hc
      · rfl
      · exact hsix.ne_NUL c hc
  unfold millionthsText c_str
  by_cases h : f < 0
  · simp only [h, if_true]
    congr 1
    apply c_chars_eq_self
    intro c hc
    rcases List.mem_cons.mp hc with rfl | hc
    · rfl
    · exact hbody c hc
  · simp only [h, if_false]
    congr 1
    exact c_chars_eq_self _ hbody

theorem decimalLib_stable : decimalLib.Stable :=
  fun f => ⟨c_str_millionthsText f, f, millionthsRead_text f, rfl⟩

/-! ## Arguments and messages -/

theorem vectorAt_of_getElem {α : Type} (v : List α) (i : Nat) (a : α) (h : v[i]? = some a) :
    vectorAt v (i : Int) = .ok a := by
  simp [vectorAt, h]

theorem vectorAt_length_append {α : Type} (v : List α) (a : α) :
    vectorAt (v ++ [a]) (v.length : Int) = .ok a :=
  vectorAt_of_getElem _ _ _ (by simp)

theorem vectorAt_negative {α : Type} (v : List α) (i : Int) (h : i < 0) :
    vectorAt v i = .error .undefinedBehaviour := by
  simp [vectorAt, not_le.mpr h]

theorem Arg.Built.get_eq {L : FloatLib} {a : Arg} (h : a.Built L) : a.get = a.mValue := by
  rcases h with ⟨s, rfl⟩ | ⟨v, _, rfl⟩ | ⟨f, rfl⟩ <;> simp [Arg.get, Arg.ofString, Arg.ofInt32,
    Arg.ofFloat, c_str_idem]

theorem Arg.Built.type {L : FloatLib} {a : Arg} (h : a.Built L) :
    a.mType = .TYPE_INT32 ∨ a.mType = .TYPE_FLOAT ∨ a.mType = .TYPE_STRING := by
  rcases h with ⟨s, rfl⟩ | ⟨v, _, rfl⟩ | ⟨f, rfl⟩ <;> simp [Arg.ofString, Arg.ofInt32, Arg.ofFloat]

theorem Message.WF_create (L : FloatLib) (address : String) : (Message.create address).WF L := by
  intro a ha; simp [Message.create] at ha

theorem Message.WF_push (L : FloatLib) (m : Message) (a : Arg) (hm : m.WF L) (ha : a.Built L) :
    Message.WF L { m with mArgs := m.mArgs ++ [a] } := by
  intro b hb
  rcases List.mem_append.mp hb with hb | hb
  · exact hm b hb
  · simp at hb; subst hb; exact ha

theorem Message.WF_addIntArg (L : FloatLib) (m : Message) (v : Int) (hm : m.WF L)
    (hv : isInt32 v) : (m.addIntArg v).WF L :=
  Message.WF_push L m _ hm (Or.inr (Or.inl ⟨v, hv, rfl⟩))

theorem Message.WF_addFloatArg (L : FloatLib) (m : Message) (f : L.Flt) (hm : m.WF L) :
    (m.addFloatArg L f).WF L :=
  Message.WF_push L m _ hm (Or.inr (Or.inr ⟨f, rfl⟩))

theorem Message.WF_addStringArg (L : FloatLib) (m : Message) (s : String) (hm : m.WF L) :
    (m.addStringArg s).WF L :=
  Message.WF_push L m _ hm (Or.inl ⟨s, rfl⟩)

theorem Message.getArgType_of_getElem (m : Message) (i : Nat) (a : Arg)
    (h : m.mArgs[i]? = some a) : m.getArgType (i : Int) = .ok a.mType := by
  have hi : i < m.mArgs.length := (List.getElem?_eq_some.mp h).1
  have : ¬ ((i : Int) ≥ (m.mArgs.length : Int)) := by omega
  simp [Message.getArgType, this, vectorAt_of_getElem _ _ _ h, Except.map, Arg.getType]

theorem Message.getArgType_push (m : Message) (a : Arg) :
    Message.getArgType { m with mArgs := m.mArgs ++ [a] } m.getNumArgs = .ok a.mType :=
  Message.getArgType_of_getElem _ m.mArgs.length a (by simp)

theorem Message.getArgAsString_of_getElem (m : Message) (i : Nat) (a : Arg) (c : Bool)
    (h : m.mArgs[i]? = some a) : m.getArgAsString (i : Int) c = .ok a.get := by
  simp only [Message.getArgAsString, vectorAt_of_getElem _ _ _ h]
  rfl

theorem Message.getArgAsInt32_of_getElem (m : Message) (i : Nat) (a : Arg) (c : Bool)
    (h : m.mArgs[i]? = some a) (ht : a.mType = .TYPE_INT32) :
    m.getArgAsInt32 (i : Int) c = stoi a.get := by
  simp only [Message.getArgAsInt32, Message.getArgType_of_getElem m i a h, ht,
    vectorAt_of_getElem _ _ _ h]
  rfl

theorem appendsOne_push (m : Message) (a : Arg) :
    AppendsOne m { m with mArgs := m.mArgs ++ [a] } a.mType := by
  refine ⟨by simp [Message.getNumArgs], Message.getArgType_push m a, rfl, ?_⟩
  intro i hi
  have h1 : (m.mArgs ++ [a])[i]? = m.mArgs[i]? := List.getElem?_append_left hi
  refine ⟨h1, ?_⟩
  obtain ⟨b, hb⟩ : ∃ b, m.mArgs[i]? = some b := ⟨m.mArgs[i], by simp [hi]⟩
  rw [Message.getArgType_of_getElem m i b hb]
  exact Message.getArgType_of_getElem _ i b (by simpa [hb] using h1)

/-! ## Copy of a message -/

theorem Message.getArgAsFloat_of_getElem (L : FloatLib) (m : Message) (i : Nat) (a : Arg)
    (c : Bool) (h : m.mArgs[i]? = some a) (ht : a.mType = .TYPE_FLOAT) :
    m.getArgAsFloat L (i : Int) c = L.stof a.get := by
  simp only [Message.getArgAsFloat, Message.getArgType_of_getElem m i a h, ht,
    vectorAt_of_getElem _ _ _ h]
  rfl

/-- One turn of the loop of `copy` on an argument made by a constructor pushes an equal
argument. -/
theorem Message.copyArg_built (L : FloatLib) (hL : L.Stable) (other self : Message) (i : Nat)
    (a : Arg) (h : other.mArgs[i]? = some a) (ha : a.Built L) :
    Message.copyArg L other self i = .ok { self with mArgs := self.mArgs ++ [a] } := by
  have ht := Message.getArgType_of_getElem other i a h
  rcases ha with ⟨s, rfl⟩ | ⟨v, hv, rfl⟩ | ⟨f, rfl⟩
  · have hs := Message.getArgAsString_of_getElem other i _ false h
    have e : (Arg.ofString s).get = c_str s := by simp [Arg.get, Arg.ofString, c_str_idem]
    have e2 : Arg.ofString (c_str s) = Arg.ofString s := by simp [Arg.ofString, c_str_idem]
    simp only [Message.copyArg, ht, hs, e]
    simp [Arg.ofString, bind, Except.bind, pure, Except.pure, c_str_idem]
  · have hs := Message.getArgAsInt32_of_getElem other i _ false h rfl
    have e : (Arg.ofInt32 v).get = to_string v := by
      simp [Arg.get, Arg.ofInt32, c_str_idem, c_str_to_string]
    rw [e, stoi_to_string v hv] at hs
    simp only [Message.copyArg, ht, hs]
    simp [Arg.ofInt32, bind, Except.bind, pure, Except.pure]
  · have hs := Message.getArgAsFloat_of_getElem L other i _ false h rfl
    obtain ⟨hc, g, hg, hgf⟩ := hL f
    have e : (Arg.ofFloat L f).get = L.to_string f := by
      simp [Arg.get, Arg.ofFloat, c_str_idem, hc]
    rw [e, hg] at hs
    simp only [Message.copyArg, ht, hs]
    simp [Arg.ofFloat, bind, Except.bind, pure, Except.pure, hgf]

/-- On a message built through the interface `copy` assigns the address and appends the
arguments of `other`, each equal to the one it was made from. -/
theorem Message.copy_WF (L : FloatLib) (hL : L.Stable) (self other : Message)
    (ho : other.WF L) :
    self.copy L other = .ok { mAddress := other.mAddress, mArgs := self.mArgs ++ other.mArgs } := by
  have key : ∀ n, n ≤ other.mArgs.length → ∀ acc : Message,
      (List.range n).foldlM (Message.copyArg L other) acc =
        .ok { acc with mArgs := acc.mArgs ++ other.mArgs.take n } := by
    intro n
    induction n with
    | zero => intro _ acc; simp [pure, Except.pure]
    | succ n ih =>
      intro hn acc
      have hlt : n < other.mArgs.length := hn
      have hget : other.mArgs[n]? = some other.mArgs[n] := by simp [hlt]
      rw [List.range_succ, List.foldlM_append, ih (by omega) acc]
      simp only [bind, Except.bind, List.foldlM_cons, List.foldlM_nil]
      rw [Message.copyArg_built L hL other _ n _ hget (ho _ (List.getElem_mem hlt))]
      rw [List.take_succ, hget]
      simp [pure, Except.pure]
  have := key other.mArgs.length (le_refl _) { self with mAddress := other.mAddress }
  simpa [Message.copy] using this

/-- The invariant of the arguments survives `clear`. -/
theorem Message.WF_clear (L : FloatLib) (m : Message) : m.clear.WF L := by
  intro a ha
  simp [Message.clear] at ha

/-- The invariant of the arguments survives `copy`. -/
theorem Message.WF_copy (L : FloatLib) (hL : L.Stable) (self other : Message)
    (hs : self.WF L) (ho : other.WF L) :
    ∃ m, self.copy L other = .ok m ∧ m.WF L := by
  refine ⟨_, Message.copy_WF L hL self other ho, ?_⟩
  intro a ha
  rcases List.mem_append.mp ha with h | h
  · exact hs a h
  · exact ho a h

/-! ## Queues -/

theorem MessageQueue.push_back_free (ms : List Message) (m : Message) :
    MessageQueue.push_back ⟨ms, false⟩ m = .ok ⟨ms ++ [m], false⟩ := rfl

theorem MessageQueue.size_free (ms : List Message) :
    MessageQueue.size ⟨ms, false⟩ = .ok (ms.length, ⟨ms, false⟩) := rfl

theorem MessageQueue.front_free (m : Message) (ms : List Message) :
    MessageQueue.front ⟨m :: ms, false⟩ = .ok (m, ⟨m :: ms, false⟩) := rfl

theorem MessageQueue.pop_front_free (m : Message) (ms : List Message) :
    MessageQueue.pop_front ⟨m :: ms, false⟩ = .ok ⟨ms, false⟩ := rfl

theorem MessageQueue.pushAll_free (ms : List Message) : ∀ ms0 : List Message,
    MessageQueue.pushAll ⟨ms0, false⟩ ms = .ok ⟨ms0 ++ ms, false⟩ := by
  induction ms with
  | nil => intro ms0; simp [MessageQueue.pushAll, pure, Except.pure]
  | cons m ms ih =>
    intro ms0
    have := ih (ms0 ++ [m])
    simp only [MessageQueue.pushAll, List.foldlM_cons, MessageQueue.push_back_free, bind,
      Except.bind] at this ⊢
    simpa using this

theorem MessageQueue.drain_free (fuel : Nat) : ∀ ms : List Message, ms.length < fuel →
    MessageQueue.drain fuel ⟨ms, false⟩ = .ok (ms, ⟨[], false⟩) := by
  induction fuel with
  | zero => intro ms h; omega
  | succ fuel ih =>
    intro ms h
    cases ms with
    | nil => rfl
    | cons m ms =>
      have := ih ms (by simpa using h)
      simp only [MessageQueue.drain, MessageQueue.size_free, MessageQueue.front_free,
        MessageQueue.pop_front_free, bind, Except.bind, this]
      simp [pure, Except.pure]

/-! ## Shared memory -/

theorem lookup_setObject_same (name : String) (q : MessageQueue) :
    ∀ objs : List (String × MessageQueue), (objs.lookup name).isSome = true →
      (setObject name q objs).lookup name = some q := by
  intro objs
  induction objs with
  | nil => intro h; simp at h
  | cons p ps ih =>
    intro h
    by_cases e : (name == p.1) = true
    · simp [setObject, e, List.lookup]
    · have e1 : (name == p.1) = false := by simpa using e
      have h1 : (ps.lookup name).isSome = true := by
        obtain ⟨k, v⟩ := p
        simpa [List.lookup, e1] using h
      obtain ⟨k, v⟩ := p
      simp only [setObject, e1, List.lookup]
      simpa using ih h1

theorem lookup_setObject_other (name other : String) (q : MessageQueue) (h : other ≠ name) :
    ∀ objs : List (String × MessageQueue),
      (setObject name q objs).lookup other = objs.lookup other := by
  intro objs
  induction objs with
  | nil => rfl
  | cons p ps ih =>
    obtain ⟨k, v⟩ := p
    by_cases e : (name == k) = true
    · have ek : name = k := by simpa using e
      have e2 : (other == k) = false := by
        subst ek
        simpa using h
      simp [setObject, e, List.lookup, e2]
    · have e1 : (name == k) = false := by simpa using e
      simp only [setObject, e1, List.lookup]
      cases (other == k)
      · simpa using ih
      · rfl

theorem Shm.load_store_same (w : Shm) (seg : Nat) (name : String) (q q0 : MessageQueue)
    (h : w.load seg name = .ok q0) : (w.store seg name q).load seg name = .ok q := by
  unfold Shm.load at h ⊢
  simp only [Shm.store, List.getElem?_modify_eq]
  cases hs : w.segments[seg]? with
  | none => rw [hs] at h; simp at h
  | some s =>
    rw [hs] at h
    simp only [Functor.map, Option.map]
    cases hl : s.objects.lookup name with
    | none => simp [hl] at h
    | some q1 =>
      rw [lookup_setObject_same name q s.objects (by simp [hl])]

theorem Shm.load_store_other (w : Shm) (seg : Nat) (name other : String) (q : MessageQueue)
    (h : other ≠ name) : (w.store seg name q).load seg other = w.load seg other := by
  unfold Shm.load
  simp only [Shm.store, List.getElem?_modify_eq]
  cases hs : w.segments[seg]? with
  | none => rfl
  | some s =>
    simp only [Functor.map, Option.map]
    rw [lookup_setObject_other name other q h]

theorem lookup_filter_ne (name : String) : ∀ names : List (String × Nat),
    (names.filter (fun p => p.1 != name)).lookup name = none := by
  intro names
  induction names with
  | nil => rfl
  | cons p ps ih =>
    obtain ⟨k, v⟩ := p
    by_cases e : k = name
    · have e2 : ¬ ((k != name) = true) := by simpa using e
      rw [List.filter_cons, if_neg e2]
      exact ih
    · have e1 : (name == k) = false := by simpa using fun h => e h.symm
      have e2 : (k != name) = true := by simpa using e
      rw [List.filter_cons, if_pos e2]
      simp only [List.lookup, e1]
      exact ih

theorem lookup_append_new (name : String) (n : Nat) (names : List (String × Nat))
    (h : names.lookup name = none) : (names ++ [(name, n)]).lookup name = some n := by
  induction names with
  | nil => simp [List.lookup]
  | cons p ps ih =>
    obtain ⟨k, v⟩ := p
    cases e : (name == k) with
    | true => simp [List.lookup, e] at h
    | false =>
      simp only [List.lookup, e] at h
      simp only [List.cons_append, List.lookup, e]
      exact ih h

theorem modify_length_append {α : Type} (f : α → α) (a : α) : ∀ l : List α,
    List.modify f l.length (l ++ [a]) = l ++ [f a] := by
  intro l
  induction l with
  | nil => rfl
  | cons b l ih => simp [List.modify_succ_cons, ih]

/-- The messenger and the shared memory that `createServer` returns when the operating
system does not refuse: a new segment with the two empty queues. -/
theorem Messenger.createServer_ok (segmentName : String) (w0 : Shm) :
    Messenger.createServer segmentName false w0 =
      (some { mMsm := some w0.segments.length, mSegmentName := segmentName,
              mIn := .object w0.segments.length "Clients",
              mOut := .object w0.segments.length "Server", mShouldReleaseMemory := true },
       { segments := w0.segments ++
           [⟨[("Clients", MessageQueue.create), ("Server", MessageQueue.create)]⟩],
         names := w0.names.filter (fun p => p.1 != c_str segmentName) ++
           [(c_str segmentName, w0.segments.length)] }) := by
  have hl := lookup_filter_ne (c_str segmentName) w0.names
  simp [Messenger.createServer, Shm.create_only, Shm.remove, hl, Shm.find_or_construct,
    Shm.find, Messenger.create, List.lookup, modify_length_append]


/-- The messenger that `createClient` returns on the shared memory a server left. -/
theorem Messenger.createClient_ok (segmentName : String) (w0 : Shm) :
    Messenger.createClient segmentName false (Messenger.createServer segmentName false w0).2 =
      (some { mMsm := some w0.segments.length, mSegmentName := segmentName,
              mIn := .object w0.segments.length "Server",
              mOut := .object w0.segments.length "Clients", mShouldReleaseMemory := false },
       (Messenger.createServer segmentName false w0).2) := by
  have hl := lookup_append_new (c_str segmentName) w0.segments.length _
    (lookup_filter_ne (c_str segmentName) w0.names)
  rw [Messenger.createServer_ok]
  simp [Messenger.createClient, Shm.open_only, hl, Shm.find, Messenger.create, List.lookup]

theorem Messenger.sendMessage_object (self : Messenger) (m : Message) (w : Shm) (seg : Nat)
    (name : String) (ms : List Message) (hout : self.mOut = .object seg name)
    (hq : w.load seg name = .ok ⟨ms, false⟩) :
    self.sendMessage m w = .ok (w.store seg name ⟨ms ++ [m], false⟩) := by
  simp only [Messenger.sendMessage, Shm.call, hout, hq, bind, Except.bind,
    MessageQueue.push_back_free]
  rfl

theorem Messenger.getNumMessages_object (self : Messenger) (w : Shm) (seg : Nat)
    (name : String) (ms : List Message) (hin : self.mIn = .object seg name)
    (hq : w.load seg name = .ok ⟨ms, false⟩) :
    (self.getNumMessages w).map Prod.fst = .ok ms.length := by
  simp only [Messenger.getNumMessages, Shm.call, hin, hq, bind, Except.bind,
    MessageQueue.size_free]
  rfl

theorem Messenger.hasMessageWaiting_object (self : Messenger) (w : Shm) (seg : Nat)
    (name : String) (ms : List Message) (hin : self.mIn = .object seg name)
    (hq : w.load seg name = .ok ⟨ms, false⟩) :
    (self.hasMessageWaiting w).map Prod.fst = .ok (ms.length != 0) := by
  simp only [Messenger.hasMessageWaiting, Shm.call, hin, hq, bind, Except.bind,
    MessageQueue.size_free]
  rfl

theorem Messenger.getFrontMessage_object (L : FloatLib) (hL : L.Stable) (self : Messenger)
    (w : Shm) (seg : Nat) (name : String) (head : Message) (rest : List Message)
    (hin : self.mIn = .object seg name) (hq : w.load seg name = .ok ⟨head :: rest, false⟩)
    (hwf : head.WF L) :
    self.getFrontMessage L w = .ok (head, w.store seg name ⟨rest, false⟩) := by
  have hc := Message.copy_WF L hL (Message.create "") head hwf
  simp only [Messenger.getFrontMessage, hin, hq, bind, Except.bind, MessageQueue.front_free,
    hc, MessageQueue.pop_front_free]
  simp [Message.create, pure, Except.pure]

/-! ## Claims on the queue -/

/-- C1 (FIFO order): for every finite list of messages, `push_back` of each of them in order
on a new queue and then the loop that takes `front()` and calls `pop_front()` until `size()`
is 0 ends, yields exactly the messages pushed (same addresses and arguments) in the order of
the pushes, and leaves a queue of size 0. -/
theorem fifo_order (messages : List Message) (fuel : Nat) (h : messages.length < fuel) :
    (MessageQueue.create.pushAll messages >>= MessageQueue.drain fuel) =
      .ok (messages, MessageQueue.create) ∧
    MessageQueue.create.size = .ok (0, MessageQueue.create) := by
  refine ⟨?_, rfl⟩
  have h1 := MessageQueue.pushAll_free messages []
  simp only [List.nil_append] at h1
  show (MessageQueue.pushAll ⟨[], false⟩ messages >>= MessageQueue.drain fuel) = _
  rw [h1]
  exact MessageQueue.drain_free fuel messages h

/-- Witness of C1: the addresses "a", "b", "c". -/
theorem fifo_order_witness :
    [Message.create "a", Message.create "b", Message.create "c"].length < 4 ∧
    (MessageQueue.create.pushAll [Message.create "a", Message.create "b", Message.create "c"]
        >>= MessageQueue.drain 4) =
      .ok ([Message.create "a", Message.create "b", Message.create "c"], MessageQueue.create) :=
  ⟨by decide,
    (fifo_order [Message.create "a", Message.create "b", Message.create "c"] 4 (by decide)).1⟩

/-! ## Claims on the messenger -/

/-- C2 (cross-wiring): for a server made by `createServer( name )` and a client made by
`createClient( name )` on the same arena, a message given to the server's `sendMessage` is
appended to the client's inbound queue (`"Server"`), is counted by the client's
`getNumMessages` / `hasMessageWaiting`, and on the new pair is the message the client's
`getFrontMessage` returns; the same holds from the client to the server (`"Clients"`); the
sender's own inbound queue is not changed.  Here `w0` is the shared memory before the
bootstrap, the new segment gets the handle `w0.segments.length`, and `w` is any later state
in which the two queues of that segment hold `toServer` and `toClient`.  The message is one
built through the interface, and the float library reads its own text (`FloatLib.Stable`),
as `getFrontMessage` makes every argument anew. -/
theorem cross_wiring (L : FloatLib) (hL : L.Stable) (segmentName : String) (w0 w : Shm)
    (toServer toClient : List Message) (m : Message) (hm : m.WF L)
    (hC : w.load w0.segments.length "Clients" = .ok ⟨toServer, false⟩)
    (hS : w.load w0.segments.length "Server" = .ok ⟨toClient, false⟩) :
    ∃ (server client : Messenger) (w1 : Shm),
      Messenger.createServer segmentName false w0 = (some server, w1) ∧
      Messenger.createClient segmentName false w1 = (some client, w1) ∧
      (∃ w2 w3, server.sendMessage m w1 = .ok w2 ∧
        client.getFrontMessage L w2 = .ok (m, w3)) ∧
      (∃ w2 w3, client.sendMessage m w1 = .ok w2 ∧
        server.getFrontMessage L w2 = .ok (m, w3)) ∧
      (∃ w2, server.sendMessage m w = .ok w2 ∧
        w2.load w0.segments.length "Server" = .ok ⟨toClient ++ [m], false⟩ ∧
        w2.load w0.segments.length "Clients" = .ok ⟨toServer, false⟩ ∧
        (client.getNumMessages w2).map Prod.fst = .ok (toClient.length + 1) ∧
        (client.hasMessageWaiting w2).map Prod.fst = .ok true ∧
        (server.getNumMessages w2).map Prod.fst = .ok toServer.length) ∧
      (∃ w2, client.sendMessage m w = .ok w2 ∧
        w2.load w0.segments.length "Clients" = .ok ⟨toServer ++ [m], false⟩ ∧
        w2.load w0.segments.length "Server" = .ok ⟨toClient, false⟩ ∧
        (server.getNumMessages w2).map Prod.fst = .ok (toServer.length + 1) ∧
        (server.hasMessageWaiting w2).map Prod.fst = .ok true ∧
        (client.getNumMessages w2).map Prod.fst = .ok toClient.length) := by
  have hne : ("Clients" : String) ≠ "Server" := by decide
  have h1C : (Messenger.createServer segmentName false w0).2.load w0.segments.length "Clients"
      = .ok ⟨[], false⟩ := by
    rw [Messenger.createServer_ok]
    simp [Shm.load, List.lookup, MessageQueue.create]
  have h1S : (Messenger.createServer segmentName false w0).2.load w0.segments.length "Server"
      = .ok ⟨[], false⟩ := by
    rw [Messenger.createServer_ok]
    simp [Shm.load, List.lookup, MessageQueue.create]
  refine ⟨⟨some w0.segments.length, segmentName, .object w0.segments.length "Clients",
      .object w0.segments.length "Server", true⟩,
    ⟨some w0.segments.length, segmentName, .object w0.segments.length "Server",
      .object w0.segments.length "Clients", false⟩,
    (Messenger.createServer segmentName false w0).2, ?_,
    Messenger.createClient_ok segmentName w0, ?_, ?_, ?_, ?_⟩
  · rw [Messenger.createServer_ok]
  · exact ⟨_, _, Messenger.sendMessage_object _ m _ _ "Server" [] rfl h1S,
      Messenger.getFrontMessage_object L hL _ _ _ "Server" m [] rfl
        (Shm.load_store_same _ _ _ _ _ h1S) hm⟩
  · exact ⟨_, _, Messenger.sendMessage_object _ m _ _ "Clients" [] rfl h1C,
      Messenger.getFrontMessage_object L hL _ _ _ "Clients" m [] rfl
        (Shm.load_store_same _ _ _ _ _ h1C) hm⟩
  · have hs := Shm.load_store_same w _ "Server" ⟨toClient ++ [m], false⟩ _ hS
    have hc : (w.store w0.segments.length "Server" ⟨toClient ++ [m], false⟩).load
        w0.segments.length "Clients" = .ok ⟨toServer, false⟩ := by
      rw [Shm.load_store_other _ _ _ _ _ hne, hC]
    refine ⟨_, Messenger.sendMessage_object _ m w _ "Server" toClient rfl hS, hs, hc, ?_, ?_, ?_⟩
    · simpa using Messenger.getNumMessages_object _ _ _ "Server" _ rfl hs
    · simpa using Messenger.hasMessageWaiting_object _ _ _ "Server" _ rfl hs
    · exact Messenger.getNumMessages_object _ _ _ "Clients" _ rfl hc
  · have hc := Shm.load_store_same w _ "Clients" ⟨toServer ++ [m], false⟩ _ hC
    have hs : (w.store w0.segments.length "Clients" ⟨toServer ++ [m], false⟩).load
        w0.segments.length "Server" = .ok ⟨toClient, false⟩ := by
      rw [Shm.load_store_other _ _ _ _ _ hne.symm, hS]
    refine ⟨_, Messenger.sendMessage_object _ m w _ "Clients" toServer rfl hC, hc, hs, ?_, ?_,
      ?_⟩
    · simpa using Messenger.getNumMessages_object _ _ _ "Clients" _ rfl hc
    · simpa using Messenger.hasMessageWaiting_object _ _ _ "Clients" _ rfl hc
    · exact Messenger.getNumMessages_object _ _ _ "Server" _ rfl hs

/-- Witness of C2: a server and a client on the arena "x" of an empty machine, and a message
with one integer argument sent by the server. -/
theorem cross_wiring_witness :
    decimalLib.Stable ∧ ((Message.create "a").addIntArg 42).WF decimalLib ∧
    ∃ (server client : Messenger) (w1 w2 w3 : Shm),
      Messenger.createServer "x" false ⟨[], []⟩ = (some server, w1) ∧
      Messenger.createClient "x" false w1 = (some client, w1) ∧
      server.sendMessage ((Message.create "a").addIntArg 42) w1 = .ok w2 ∧
      client.getFrontMessage decimalLib w2 = .ok ((Message.create "a").addIntArg 42, w3) := by
  have hw := Message.WF_addIntArg decimalLib _ 42 (Message.WF_create _ "a") (by decide)
  refine ⟨decimalLib_stable, hw, ?_⟩
  obtain ⟨server, client, w1, h1, h2, ⟨w2, w3, h3, h4⟩, _⟩ :=
    cross_wiring decimalLib decimalLib_stable "x" ⟨[], []⟩
      (Messenger.createServer "x" false ⟨[], []⟩).2 [] [] ((Message.create "a").addIntArg 42)
      hw (by decide) (by decide)
  exact ⟨server, client, w1, w2, w3, h1, h2, h3, h4⟩

/-- C3: for every messenger whose inbound queue is not null and not empty, with a head built
through the interface, `getFrontMessage()` returns a message equal to the head (address and
arguments, types and texts), and afterwards the inbound queue is the queue before without
its head: one message fewer, the others unchanged and in the same order.  The float library
is one that reads its own text (`FloatLib.Stable`), as the copy makes every argument anew. -/
theorem getFrontMessage_pops_head (L : FloatLib) (hL : L.Stable) (self : Messenger) (w : Shm)
    (seg : Nat) (name : String) (head : Message) (rest : List Message)
    (hin : self.mIn = .object seg name)
    (hq : w.load seg name = .ok ⟨head :: rest, false⟩) (hwf : head.WF L) :
    self.getFrontMessage L w = .ok (head, w.store seg name ⟨rest, false⟩) ∧
    (w.store seg name ⟨rest, false⟩).load seg name = .ok ⟨rest, false⟩ ∧
    (self.getNumMessages w).map Prod.fst = .ok (rest.length + 1) ∧
    (self.getNumMessages (w.store seg name ⟨rest, false⟩)).map Prod.fst = .ok rest.length := by
  have h2 := Shm.load_store_same w seg name ⟨rest, false⟩ _ hq
  refine ⟨Messenger.getFrontMessage_object L hL self w seg name head rest hin hq hwf, h2, ?_,
    Messenger.getNumMessages_object self _ seg name rest hin h2⟩
  simpa using Messenger.getNumMessages_object self w seg name (head :: rest) hin hq

/-- Witness of C3: a client with two messages waiting. -/
theorem getFrontMessage_pops_head_witness :
    decimalLib.Stable ∧ ((Message.create "a").addIntArg 42).WF decimalLib ∧
    (Messenger.createClient "x" false twoWaiting).1.map
        (fun client => client.getFrontMessage decimalLib twoWaiting) =
      some (.ok ((Message.create "a").addIntArg 42,
        twoWaiting.store 0 "Server" ⟨[Message.create "b"], false⟩)) := by
  have hw := Message.WF_addIntArg decimalLib _ 42 (Message.WF_create _ "a") (by decide)
  refine ⟨decimalLib_stable, hw, ?_⟩
  have hc : Messenger.createClient "x" false twoWaiting =
      (some ⟨some 0, "x", .object 0 "Server", .object 0 "Clients", false⟩, twoWaiting) := by
    decide
  rw [hc]
  exact congrArg some (getFrontMessage_pops_head decimalLib decimalLib_stable
    ⟨some 0, "x", .object 0 "Server", .object 0 "Clients", false⟩ twoWaiting 0 "Server"
    ((Message.create "a").addIntArg 42) [Message.create "b"] rfl (by decide) hw).1

/-- C4, the behaviour of the code: with a null inbound queue `getFrontMessage()` returns an
empty message and changes nothing; with an inbound queue that is not null and holds no
message it calls `front()` on the empty deque, which is undefined, and returns no message.
-/
theorem getFrontMessage_no_message (L : FloatLib) (self : Messenger) (w : Shm) :
    (self.mIn = .null → self.getFrontMessage L w = .ok (Message.create "", w)) ∧
    (∀ seg name, self.mIn = .object seg name → w.load seg name = .ok ⟨[], false⟩ →
      self.getFrontMessage L w = .error .undefinedBehaviour) := by
  constructor
  · intro h
    simp only [Messenger.getFrontMessage, h]
    rfl
  · intro seg name h hq
    simp only [Messenger.getFrontMessage, h, hq, bind, Except.bind]
    rfl

/-- Witness of C4: the server right after `createServer` on an empty machine. -/
theorem getFrontMessage_no_message_witness :
    (Messenger.createServer "x" false ⟨[], []⟩).1.map
        (fun server => server.getFrontMessage decimalLib
          (Messenger.createServer "x" false ⟨[], []⟩).2) =
      some (.error .undefinedBehaviour) := by
  have hc : Messenger.createServer "x" false ⟨[], []⟩ =
      (some ⟨some 0, "x", .object 0 "Clients", .object 0 "Server", true⟩,
        ⟨[⟨[("Clients", MessageQueue.create), ("Server", MessageQueue.create)]⟩],
          [("x", 0)]⟩) := by
    decide
  rw [hc]
  exact congrArg some ((getFrontMessage_no_message decimalLib
    ⟨some 0, "x", .object 0 "Clients", .object 0 "Server", true⟩ _).2 0 "Clients" rfl
    (by decide))

/-- C5, the behaviour of the code: when the arena layer throws, `createServer` and
`createClient` catch the exception and return the handle they had already made, which is not
null; the queue pointers of that messenger were never assigned, and a call that reads them
is undefined. -/
theorem bootstrap_failure_handle (segmentName : String) (w : Shm) :
    Messenger.createServer segmentName true w =
      (some (Messenger.create segmentName true), w.remove (c_str segmentName)) ∧
    Messenger.createClient segmentName true w = (some (Messenger.create segmentName false), w) ∧
    Messenger.createClient "x" false ⟨[], []⟩ = (some (Messenger.create "x" false), ⟨[], []⟩) ∧
    (Messenger.create segmentName false).mIn = .indeterminate ∧
    (Messenger.create segmentName false).mOut = .indeterminate ∧
    (Messenger.create segmentName false).hasMessageWaiting w = .error .undefinedBehaviour := by
  refine ⟨?_, ?_, by decide, rfl, rfl, rfl⟩
  · simp [Messenger.createServer, Shm.create_only]
  · simp [Messenger.createClient, Shm.open_only]

/-! ## Claims on the arguments of a message -/

/-- C6 (Int32 round trip): for every message `m`, every `int32_t` value `v` and either value
of the conversion flag, after `m.addIntArg( v )` the last index `i = getNumArgs() - 1` has
`getArgType( i ) = TYPE_INT32` and `getArgAsInt32( i ) = v`; the decimal text made for `v`
reads back as `v`. -/
theorem int32_round_trip (m : Message) (v : Int) (hv : isInt32 v) (typeConvert : Bool) :
    (m.addIntArg v).getArgType ((m.addIntArg v).getNumArgs - 1) = .ok .TYPE_INT32 ∧
    (m.addIntArg v).getArgAsInt32 ((m.addIntArg v).getNumArgs - 1) typeConvert = .ok v ∧
    stoi (to_string v) = .ok v := by
  have hlast : (m.addIntArg v).getNumArgs - 1 = ((m.mArgs.length : Nat) : Int) := by
    simp [Message.getNumArgs, Message.addIntArg]
  have hget : (m.addIntArg v).mArgs[m.mArgs.length]? = some (Arg.ofInt32 v) := by
    simp [Message.addIntArg]
  have hval : (Arg.ofInt32 v).get = to_string v := by
    simp [Arg.get, Arg.ofInt32, c_str_idem, c_str_to_string]
  rw [hlast]
  refine ⟨Message.getArgType_of_getElem _ _ _ hget, ?_, stoi_to_string v hv⟩
  rw [Message.getArgAsInt32_of_getElem _ _ _ typeConvert hget rfl, hval]
  exact stoi_to_string v hv

/-- Witness of C6 at the smallest `int32_t`. -/
theorem int32_round_trip_witness :
    isInt32 (-2147483648) ∧
    ((Message.create "a").addIntArg (-2147483648)).getArgAsInt32
      (((Message.create "a").addIntArg (-2147483648)).getNumArgs - 1) false =
        .ok (-2147483648) :=
  ⟨by decide, (int32_round_trip (Message.create "a") (-2147483648) (by decide) false).2.1⟩

/-- C7 (appending preserves order): each of `addIntArg`, `addFloatArg`, `addStringArg` makes
`getNumArgs()` one larger, gives the new last position the type `TYPE_INT32`, `TYPE_FLOAT`,
`TYPE_STRING`, and keeps the address and every earlier argument (type and stored text); so
after a sequence of add calls on a new message `getArgType( i )` is the type of call `i`. -/
theorem add_appends_in_order (L : FloatLib) (m : Message) :
    (∀ v : Int, AppendsOne m (m.addIntArg v) .TYPE_INT32) ∧
    (∀ f : L.Flt, AppendsOne m (m.addFloatArg L f) .TYPE_FLOAT) ∧
    (∀ s : String, AppendsOne m (m.addStringArg s) .TYPE_STRING) ∧
    ∀ (address : String) (calls : List (AddCall L)) (i : Nat) (call : AddCall L),
      calls[i]? = some call →
      (calls.foldl AddCall.run (Message.create address)).getArgType (i : Int) =
        .ok call.argType := by
  refine ⟨fun v => appendsOne_push m _, fun f => appendsOne_push m _,
    fun s => appendsOne_push m _, ?_⟩
  intro address calls
  have key : ∀ (calls : List (AddCall L)) (m0 : Message),
      (calls.foldl AddCall.run m0).mArgs.map Arg.mType =
        m0.mArgs.map Arg.mType ++ calls.map AddCall.argType := by
    intro calls
    induction calls with
    | nil => intro m0; simp
    | cons c cs ih =>
      intro m0
      rw [List.foldl_cons, ih]
      cases c <;> simp [AddCall.run, AddCall.argType, Message.addIntArg, Message.addFloatArg,
        Message.addStringArg, Arg.ofInt32, Arg.ofFloat, Arg.ofString]
  intro i call hcall
  have h1 := key calls (Message.create address)
  simp only [Message.create, List.map_nil, List.nil_append] at h1
  have h2 : ((calls.foldl AddCall.run (Message.create address)).mArgs.map Arg.mType)[i]? =
      some call.argType := by
    simp only [Message.create, h1, List.getElem?_map, hcall, Option.map_some']
  rw [List.getElem?_map] at h2
  cases hget : (calls.foldl AddCall.run (Message.create address)).mArgs[i]? with
  | none => rw [hget] at h2; simp at h2
  | some a =>
    rw [hget] at h2
    simp only [Option.map_some', Option.some.injEq] at h2
    rw [Message.getArgType_of_getElem _ i a hget, h2]

/-- Witness of C7: three calls on a new message. -/
theorem add_appends_in_order_witness :
    (((Message.create "a").addIntArg 42).addFloatArg decimalLib (3500000 : Int)
      |>.addStringArg "x").getArgType 1 = .ok .TYPE_FLOAT :=
  (add_appends_in_order decimalLib (Message.create "a")).2.2.2 "a"
    [.addIntArg 42, .addFloatArg (3500000 : Int), .addStringArg "x"] 1
    (.addFloatArg (3500000 : Int)) rfl

/-- Counterexample to C8 as stated: a string argument with a NUL inside is stored up to the
NUL only, so `getArgAsString` does not return the string that was added. -/
theorem getArgAsString_not_added_string :
    ((Message.create "a").addStringArg ⟨['a', NUL, 'b']⟩).getArgAsString 0 false = .ok "a" ∧
    ((Message.create "a").addStringArg ⟨['a', NUL, 'b']⟩).getArgAsString 0 false ≠
      .ok ⟨['a', NUL, 'b']⟩ := by
  decide

/-- C8, amended: for every message built through the interface and every valid index `i`,
`getArgAsString( i, convert )` succeeds whatever the stored type, gives the same result for
both values of `convert`, and returns the stored text; for an argument added with
`addStringArg( s )` that is `s` up to its first NUL (`s` itself when it has none), for one
added with `addIntArg( v )` the decimal text of `v`. -/
theorem getArgAsString_stored_text (L : FloatLib) (m : Message) (hm : m.WF L) (i : Int)
    (h0 : 0 ≤ i) (hi : i < m.getNumArgs) (convert : Bool) :
    (∃ a, m.mArgs[i.toNat]? = some a ∧ m.getArgAsString i convert = .ok a.mValue) ∧
    m.getArgAsString i true = m.getArgAsString i false ∧
    (∀ s : String, (m.addStringArg s).getArgAsString m.getNumArgs convert = .ok (c_str s)) ∧
    (∀ s : String, NUL ∉ s.data → c_str s = s) ∧
    (∀ v : Int, (m.addIntArg v).getArgAsString m.getNumArgs convert = .ok (to_string v)) := by
  obtain ⟨n, rfl⟩ := Int.eq_ofNat_of_zero_le h0
  have hlt : n < m.mArgs.length := by
    simp only [Message.getNumArgs] at hi; omega
  have hget : m.mArgs[n]? = some m.mArgs[n] := by simp [hlt]
  have hbuilt := hm _ (List.getElem_mem hlt)
  refine ⟨⟨_, hget, ?_⟩, ?_, ?_, ?_, ?_⟩
  · rw [Message.getArgAsString_of_getElem m _ _ convert hget, hbuilt.get_eq]
  · rfl
  · intro s
    have h := Message.getArgAsString_of_getElem (m.addStringArg s) m.mArgs.length
      (Arg.ofString s) convert (by simp [Message.addStringArg])
    simpa [Message.getNumArgs, Arg.get, Arg.ofString, c_str_idem] using h
  · intro s hs
    have : c_chars s.data = s.data := c_chars_eq_self _ (by
      intro c hc
      have : c ≠ NUL := fun e => hs (e ▸ hc)
      simpa using this)
    simp [c_str, this]
  · intro v
    have h := Message.getArgAsString_of_getElem (m.addIntArg v) m.mArgs.length
      (Arg.ofInt32 v) convert (by simp [Message.addIntArg])
    simpa [Message.getNumArgs, Arg.get, Arg.ofInt32, c_str_idem, c_str_to_string] using h

/-- Witness of C8, amended: the text of an integer argument. -/
theorem getArgAsString_stored_text_witness :
    ((Message.create "a").addIntArg 7).WF decimalLib ∧
    ∃ a, ((Message.create "a").addIntArg 7).mArgs[(0 : Int).toNat]? = some a ∧
      ((Message.create "a").addIntArg 7).getArgAsString 0 true = .ok a.mValue :=
  ⟨Message.WF_addIntArg _ _ 7 (Message.WF_create _ "a") (by decide),
    (getArgAsString_stored_text decimalLib ((Message.create "a").addIntArg 7)
      (Message.WF_addIntArg _ _ 7 (Message.WF_create _ "a") (by decide)) 0 (by decide)
      (by decide) true).1⟩

/-- C9: for every message built through the interface, with `n` arguments, and every index
`i ≥ 0`: `getArgType( i )` throws `SharedMemoryExcOutOfBounds` when `i ≥ n`, and returns the
stored type of argument `i`, one of `TYPE_INT32`, `TYPE_FLOAT`, `TYPE_STRING`, when
`i < n`. -/
theorem getArgType_bounds (L : FloatLib) (m : Message) (hm : m.WF L) (i : Int) (h0 : 0 ≤ i) :
    (m.getNumArgs ≤ i → m.getArgType i = .error .OutOfBounds) ∧
    (i < m.getNumArgs → ∃ a, m.mArgs[i.toNat]? = some a ∧ m.getArgType i = .ok a.mType ∧
      (a.mType = .TYPE_INT32 ∨ a.mType = .TYPE_FLOAT ∨ a.mType = .TYPE_STRING)) := by
  constructor
  · intro h
    have : i ≥ (m.mArgs.length : Int) := h
    simp [Message.getArgType, this]
  · intro hi
    obtain ⟨n, rfl⟩ := Int.eq_ofNat_of_zero_le h0
    have hlt : n < m.mArgs.length := by
      simp only [Message.getNumArgs] at hi; omega
    have hget : m.mArgs[n]? = some m.mArgs[n] := by simp [hlt]
    exact ⟨_, hget, Message.getArgType_of_getElem m _ _ hget, (hm _ (List.getElem_mem hlt)).type⟩

/-- Witness of C9: a message with one argument, read at index 0. -/
theorem getArgType_bounds_witness :
    ((Message.create "a").addStringArg "x").WF decimalLib ∧ (0 : Int) ≤ 0 ∧
    ((Message.create "a").addStringArg "x").getArgType 0 = .ok .TYPE_STRING ∧
    ((Message.create "a").addStringArg "x").getArgType 1 = .error .OutOfBounds := by
  have hw := Message.WF_addStringArg decimalLib _ "x" (Message.WF_create _ "a")
  have h := getArgType_bounds decimalLib ((Message.create "a").addStringArg "x") hw
  refine ⟨hw, le_refl _, ?_, (h 1 (by decide)).1 (by decide)⟩
  obtain ⟨a, ha, h1, _⟩ := (h 0 (by decide)).2 (by decide)
  have : a = Arg.ofString "x" := by
    have : ((Message.create "a").addStringArg "x").mArgs[(0 : Int).toNat]? =
      some (Arg.ofString "x") := rfl
    rw [this] at ha
    exact (Option.some.inj ha).symm
  rw [h1, this]
  rfl

/-- C10, the behaviour of the code: with a negative index the bounds test of `getArgType`
passes and the vector is read outside its elements, which is undefined; `getArgAsInt32` and
`getArgAsFloat` start with `getArgType` and do the same.  No `OutOfBounds` is thrown. -/
theorem negative_index_not_OutOfBounds (L : FloatLib) (m : Message) (i : Int) (hi : i < 0)
    (typeConvert : Bool) :
    m.getArgType i = .error .undefinedBehaviour ∧
    m.getArgAsInt32 i typeConvert = .error .undefinedBehaviour ∧
    m.getArgAsFloat L i typeConvert = .error .undefinedBehaviour := by
  have h1 : ¬ (i ≥ (m.mArgs.length : Int)) := by omega
  have h2 : m.getArgType i = .error .undefinedBehaviour := by
    simp [Message.getArgType, h1, vectorAt_negative _ i hi, Except.map]
  refine ⟨h2, ?_, ?_⟩
  · simp only [Message.getArgAsInt32, h2]; rfl
  · simp only [Message.getArgAsFloat, h2]; rfl

/-- Witness of C10: index `-1` on a message with one argument. -/
theorem negative_index_not_OutOfBounds_witness :
    ((-1 : Int) < 0) ∧
    ((Message.create "a").addIntArg 7).getArgType (-1) = .error .undefinedBehaviour :=
  ⟨by decide,
    (negative_index_not_OutOfBounds decimalLib ((Message.create "a").addIntArg 7) (-1)
      (by decide) false).1⟩

/-! ## More on the getters -/

theorem stoi_error (s : String) (e : Fault) (h : stoi s = .error e) :
    e = .std_invalid_argument ∨ e = .std_out_of_range := by
  unfold stoi at h
  simp only at h
  split_ifs at h <;> simp at h <;> simp [← h]

theorem decimalLib_stdErrors : decimalLib.StdErrors := by
  intro s e h
  have h' : millionthsRead s = .error e := h
  unfold millionthsRead at h'
  simp only at h'
  split_ifs at h'
  simp at h'
  simp [← h']

theorem vectorAt_beyond {α : Type} (v : List α) (i : Int) (h : (v.length : Int) ≤ i) :
    vectorAt v i = .error .undefinedBehaviour := by
  unfold vectorAt
  split
  · have : v.length ≤ i.toNat := by omega
    rw [List.getElem?_eq_none this]
  · rfl

theorem Message.getArgType_beyond (m : Message) (i : Int) (h : m.getNumArgs ≤ i) :
    m.getArgType i = .error .OutOfBounds := by
  have : i ≥ (m.mArgs.length : Int) := h
  simp [Message.getArgType, this]

/-- C11, the behaviour of the code: for an index `i ≥ n` the numeric getters throw
`SharedMemoryExcOutOfBounds` (before any test of the type), but `getArgAsString( i )` has no
test of the index and reads the vector beyond its end, which is undefined. -/
theorem getArgAsString_beyond_end (L : FloatLib) (m : Message) (i : Int)
    (hi : m.getNumArgs ≤ i) (typeConvert : Bool) :
    m.getArgAsString i typeConvert = .error .undefinedBehaviour ∧
    m.getArgAsInt32 i typeConvert = .error .OutOfBounds ∧
    m.getArgAsFloat L i typeConvert = .error .OutOfBounds := by
  have h1 := Message.getArgType_beyond m i hi
  refine ⟨?_, ?_, ?_⟩
  · simp only [Message.getArgAsString, vectorAt_beyond m.mArgs i hi]; rfl
  · simp only [Message.getArgAsInt32, h1]; rfl
  · simp only [Message.getArgAsFloat, h1]; rfl

/-- Witness of C11: index 1 of a message with one argument. -/
theorem getArgAsString_beyond_end_witness :
    ((Message.create "a").addStringArg "x").getNumArgs ≤ 1 ∧
    ((Message.create "a").addStringArg "x").getArgAsString 1 false =
      .error .undefinedBehaviour ∧
    ((Message.create "a").addStringArg "x").getArgAsInt32 1 false = .error .OutOfBounds :=
  ⟨by decide,
    (getArgAsString_beyond_end decimalLib ((Message.create "a").addStringArg "x") 1
      (by decide) false).1,
    (getArgAsString_beyond_end decimalLib ((Message.create "a").addStringArg "x") 1
      (by decide) false).2.1⟩

/-- C12: for every message built through the interface and every valid index `i`,
`getArgAsInt32( i, convert )` throws `SharedMemoryExcInvalidArgumentType` exactly when the
stored type is `TYPE_STRING`, or is `TYPE_FLOAT` with `convert` false; `getArgAsFloat( i,
convert )` does exactly when the stored type is `TYPE_STRING`, or is `TYPE_INT32` with
`convert` false (`stof` throwing only the exceptions the standard gives it); so a string
argument is never read as a number. -/
theorem invalid_argument_type_iff (L : FloatLib) (hL : L.StdErrors) (m : Message)
    (hm : m.WF L) (i : Nat) (a : Arg) (ha : m.mArgs[i]? = some a) (convert : Bool) :
    (m.getArgAsInt32 i convert = .error .InvalidArgumentType ↔
      (a.mType = .TYPE_STRING ∨ (a.mType = .TYPE_FLOAT ∧ convert = false))) ∧
    (m.getArgAsFloat L i convert = .error .InvalidArgumentType ↔
      (a.mType = .TYPE_STRING ∨ (a.mType = .TYPE_INT32 ∧ convert = false))) ∧
    (a.mType = .TYPE_STRING →
      m.getArgAsInt32 i convert = .error .InvalidArgumentType ∧
      m.getArgAsFloat L i convert = .error .InvalidArgumentType) := by
  have ht := Message.getArgType_of_getElem m i a ha
  have hv := vectorAt_of_getElem _ _ _ ha
  have hbuilt : a.Built L := by
    obtain ⟨hlt, rfl⟩ := List.getElem?_eq_some.mp ha
    exact hm _ (List.getElem_mem hlt)
  have hstoi : ∀ s, stoi s ≠ .error .InvalidArgumentType := by
    intro s h
    rcases stoi_error s _ h with h | h <;> cases h
  have hstof : ∀ s, L.stof s ≠ .error .InvalidArgumentType := by
    intro s h
    rcases hL s _ h with h | h <;> cases h
  have hI : m.getArgAsInt32 i convert =
      if a.mType ≠ .TYPE_INT32 then
        if (convert && decide (a.mType = .TYPE_FLOAT)) = true then stoi a.get
        else .error .InvalidArgumentType
      else stoi a.get := by
    simp only [Message.getArgAsInt32, ht, hv]
    rfl
  have hF : m.getArgAsFloat L i convert =
      if a.mType ≠ .TYPE_FLOAT then
        if (convert && decide (a.mType = .TYPE_INT32)) = true then L.stof a.get
        else .error .InvalidArgumentType
      else L.stof a.get := by
    simp only [Message.getArgAsFloat, ht, hv]
    rfl
  rw [hI, hF]
  rcases hbuilt.type with h | h | h <;> cases convert <;>
    simp [h, hstoi, hstof]

/-- Witness of C12: an integer argument read as a float without conversion. -/
theorem invalid_argument_type_iff_witness :
    decimalLib.StdErrors ∧ ((Message.create "a").addIntArg 7).WF decimalLib ∧
    ((Message.create "a").addIntArg 7).mArgs[0]? = some (Arg.ofInt32 7) ∧
    (((Message.create "a").addIntArg 7).getArgAsFloat decimalLib (0 : Nat) false =
        .error .InvalidArgumentType ↔
      ((Arg.ofInt32 7).mType = .TYPE_STRING ∨
        ((Arg.ofInt32 7).mType = .TYPE_INT32 ∧ false = false))) :=
  ⟨decimalLib_stdErrors,
    Message.WF_addIntArg _ _ 7 (Message.WF_create _ "a") (by decide), rfl,
    (invalid_argument_type_iff decimalLib decimalLib_stdErrors ((Message.create "a").addIntArg 7)
      (Message.WF_addIntArg _ _ 7 (Message.WF_create _ "a") (by decide)) 0 (Arg.ofInt32 7) rfl
      false).2.1⟩

/-- C13, the behaviour of the code: `m.copy( other )` assigns the address and pushes the
arguments of `other` after the arguments `m` already has, so a message that had arguments is
not a copy of `other` afterwards: its count is the sum of the two counts.  (On a message
without arguments the result is equal to `other`.) -/
theorem copy_appends (L : FloatLib) (hL : L.Stable) (m other : Message) (ho : other.WF L) :
    m.copy L other = .ok { mAddress := other.mAddress, mArgs := m.mArgs ++ other.mArgs } ∧
    (Message.mk other.mAddress (m.mArgs ++ other.mArgs)).getNumArgs =
      m.getNumArgs + other.getNumArgs ∧
    (m.mArgs = [] → m.copy L other = .ok other) ∧
    (m.mArgs ≠ [] → m.copy L other ≠ .ok other) := by
  have h := Message.copy_WF L hL m other ho
  refine ⟨h, by simp [Message.getNumArgs], ?_, ?_⟩
  · intro he
    rw [h, he]
    rfl
  · intro hne he
    rw [h] at he
    have h2 : m.mArgs ++ other.mArgs = other.mArgs := by
      have := congrArg Message.mArgs (Except.ok.inj he)
      exact this
    have h3 := congrArg List.length h2
    simp at h3
    exact hne h3

/-- Witness of C13: a message with one integer argument assigned from a message with one
string argument has two arguments afterwards. -/
theorem copy_appends_witness :
    decimalLib.Stable ∧ ((Message.create "b").addStringArg "x").WF decimalLib ∧
    ((Message.create "a").addIntArg 1).copy decimalLib ((Message.create "b").addStringArg "x") =
      .ok ⟨"b", [Arg.ofInt32 1, Arg.ofString "x"]⟩ ∧
    ((Message.create "a").addIntArg 1).copy decimalLib ((Message.create "b").addStringArg "x") ≠
      .ok ((Message.create "b").addStringArg "x") := by
  have hw := Message.WF_addStringArg decimalLib _ "x" (Message.WF_create _ "b")
  have h := copy_appends decimalLib decimalLib_stable ((Message.create "a").addIntArg 1)
    ((Message.create "b").addStringArg "x") hw
  exact ⟨decimalLib_stable, hw, h.1, h.2.2.2 (by decide)⟩

/-! ## The mutex -/

theorem MessageQueue.getFrontAddress_deadlock (q : MessageQueue) :
    q.getFrontAddress = .error .deadlock := by
  obtain ⟨ms, b⟩ := q
  cases b <;> rfl

/-- C14, the behaviour of the code: `MessageQueue::getFrontAddress()` takes the mutex and
then calls `size()`, which waits for the same mutex, so it never returns, on an empty queue
and on any other; `Messenger::getFrontAddress()` returns "" for a null inbound queue and
otherwise does not return either.  Only `size()` of a new queue is 0 as claimed. -/
theorem getFrontAddress_never_returns (q : MessageQueue) (self : Messenger) (w : Shm) :
    q.getFrontAddress = .error .deadlock ∧
    MessageQueue.create.getFrontAddress = .error .deadlock ∧
    MessageQueue.create.size = .ok (0, MessageQueue.create) ∧
    (self.mIn = .null → self.getFrontAddress w = .ok ("", w)) ∧
    (∀ seg name, self.mIn = .object seg name → w.load seg name = .ok q →
      self.getFrontAddress w = .error .deadlock) := by
  refine ⟨MessageQueue.getFrontAddress_deadlock q, rfl, rfl, ?_, ?_⟩
  · intro h
    simp only [Messenger.getFrontAddress, Shm.call, h]
  · intro seg name h hq
    simp only [Messenger.getFrontAddress, Shm.call, h, hq, bind, Except.bind,
      MessageQueue.getFrontAddress_deadlock]

/-- Witness of C14: the client of an arena with two messages waiting. -/
theorem getFrontAddress_never_returns_witness :
    (⟨some 0, "x", .object 0 "Server", .object 0 "Clients", false⟩ : Messenger).getFrontAddress
      twoWaiting = .error .deadlock :=
  (getFrontAddress_never_returns ⟨[(Message.create "a").addIntArg 42, Message.create "b"], false⟩
    ⟨some 0, "x", .object 0 "Server", .object 0 "Clients", false⟩ twoWaiting).2.2.2.2
    0 "Server" rfl (by decide)

/-- C20, the behaviour of the code: started with the mutex free, `push_back`, `size`, and on
a queue that is not empty `front` and `pop_front`, take the mutex once, return and leave it
free; `getFrontAddress` takes the mutex and, still holding it, calls `size()`, which takes it
again: the call waits for itself and never returns. -/
theorem mutex_taken_twice (q : MessageQueue) (hfree : q.mMutex = false) (m : Message) :
    (∃ q1, q.push_back m = .ok q1 ∧ q1.mMutex = false) ∧
    (∃ n q1, q.size = .ok (n, q1) ∧ q1.mMutex = false) ∧
    (q.mMessages ≠ [] → ∃ head q1, q.front = .ok (head, q1) ∧ q1.mMutex = false) ∧
    (q.mMessages ≠ [] → ∃ q1, q.pop_front = .ok q1 ∧ q1.mMutex = false) ∧
    (∃ q1, q.lock = .ok q1 ∧ q1.mMutex = true ∧ q1.size = .error .deadlock) ∧
    q.getFrontAddress = .error .deadlock := by
  obtain ⟨ms, b⟩ := q
  simp only at hfree
  subst hfree
  refine ⟨⟨_, rfl, rfl⟩, ⟨_, _, rfl, rfl⟩, ?_, ?_, ⟨_, rfl, rfl, rfl⟩, rfl⟩
  · intro hne
    cases ms with
    | nil => exact absurd rfl hne
    | cons a t => exact ⟨_, _, rfl, rfl⟩
  · intro hne
    cases ms with
    | nil => exact absurd rfl hne
    | cons a t => exact ⟨_, rfl, rfl⟩

/-- Witness of C20: a new queue. -/
theorem mutex_taken_twice_witness :
    MessageQueue.create.mMutex = false ∧
    MessageQueue.create.getFrontAddress = .error .deadlock :=
  ⟨rfl, (mutex_taken_twice MessageQueue.create rfl (Message.create "a")).2.2.2.2.2⟩

/-! ## More on the messenger -/

theorem lookup_filter_other (name other : String) (h : other ≠ name) :
    ∀ names : List (String × Nat),
      (names.filter (fun p => p.1 != name)).lookup other = names.lookup other := by
  intro names
  induction names with
  | nil => rfl
  | cons p ps ih =>
    obtain ⟨k, v⟩ := p
    by_cases e : k = name
    · have e2 : ¬ ((k != name) = true) := by simpa using e
      have e3 : (other == k) = false := by
        subst e
        simpa using h
      rw [List.filter_cons, if_neg e2]
      simp only [List.lookup, e3]
      exact ih
    · have e2 : (k != name) = true := by simpa using e
      rw [List.filter_cons, if_pos e2]
      simp only [List.lookup]
      cases (other == k)
      · exact ih
      · rfl

theorem Messenger.createServer_handle (segmentName : String) (denied : Bool) (w0 : Shm) :
    ∃ server w1, Messenger.createServer segmentName denied w0 = (some server, w1) ∧
      server.mSegmentName = segmentName ∧ server.mShouldReleaseMemory = true := by
  cases denied with
  | true =>
    exact ⟨Messenger.create segmentName true, w0.remove (c_str segmentName),
      by simp [Messenger.createServer, Shm.create_only], rfl, rfl⟩
  | false => exact ⟨_, _, Messenger.createServer_ok segmentName w0, rfl, rfl⟩

theorem Messenger.createClient_handle (segmentName : String) (denied : Bool) (w0 : Shm) :
    ∃ client, Messenger.createClient segmentName denied w0 = (some client, w0) ∧
      client.mSegmentName = segmentName ∧ client.mShouldReleaseMemory = false := by
  cases denied with
  | true =>
    exact ⟨Messenger.create segmentName false,
      by simp [Messenger.createClient, Shm.open_only], rfl, rfl⟩
  | false =>
    cases h : w0.names.lookup (c_str segmentName) with
    | none =>
      exact ⟨Messenger.create segmentName false,
        by simp [Messenger.createClient, Shm.open_only, h], rfl, rfl⟩
    | some seg =>
      exact ⟨⟨some seg, segmentName, w0.find seg "Server", w0.find seg "Clients", false⟩,
        by simp [Messenger.createClient, Shm.open_only, h, Messenger.create], rfl, rfl⟩

/-- C15 (server bootstrap again clears the earlier state): for every state of the shared
memory, also one in which an earlier session on the same name left messages in "Clients" and
"Server", a `createServer( name )` that the operating system does not refuse yields a
messenger whose inbound and outbound queues are both empty: `getNumMessages()` is 0 and
`hasMessageWaiting()` is false. -/
theorem createServer_fresh_queues (segmentName : String) (w0 : Shm) :
    ∃ (server : Messenger) (w1 : Shm) (seg : Nat),
      Messenger.createServer segmentName false w0 = (some server, w1) ∧
      server.mIn = .object seg "Clients" ∧ server.mOut = .object seg "Server" ∧
      w1.load seg "Clients" = .ok MessageQueue.create ∧
      w1.load seg "Server" = .ok MessageQueue.create ∧
      (server.getNumMessages w1).map Prod.fst = .ok 0 ∧
      (server.hasMessageWaiting w1).map Prod.fst = .ok false := by
  have hC : (Messenger.createServer segmentName false w0).2.load w0.segments.length "Clients"
      = .ok ⟨[], false⟩ := by
    rw [Messenger.createServer_ok]
    simp [Shm.load, List.lookup, MessageQueue.create]
  have hS : (Messenger.createServer segmentName false w0).2.load w0.segments.length "Server"
      = .ok ⟨[], false⟩ := by
    rw [Messenger.createServer_ok]
    simp [Shm.load, List.lookup, MessageQueue.create]
  refine ⟨⟨some w0.segments.length, segmentName, .object w0.segments.length "Clients",
      .object w0.segments.length "Server", true⟩,
    (Messenger.createServer segmentName false w0).2, w0.segments.length, ?_, rfl, rfl, hC, hS,
    ?_, ?_⟩
  · rw [Messenger.createServer_ok]
  · exact Messenger.getNumMessages_object _ _ _ "Clients" [] rfl hC
  · exact Messenger.hasMessageWaiting_object _ _ _ "Clients" [] rfl hC

/-- Witness of C15: an arena "x" that still holds three messages of an earlier session. -/
theorem createServer_fresh_queues_witness :
    usedArena.load 0 "Clients" = .ok ⟨[Message.create "a", Message.create "b"], false⟩ ∧
    ∃ (server : Messenger) (w1 : Shm) (seg : Nat),
      Messenger.createServer "x" false usedArena = (some server, w1) ∧
      server.mIn = .object seg "Clients" ∧
      (server.getNumMessages w1).map Prod.fst = .ok 0 := by
  refine ⟨by decide, ?_⟩
  obtain ⟨server, w1, seg, h1, h2, _, _, _, h3, _⟩ := createServer_fresh_queues "x" usedArena
  exact ⟨server, w1, seg, h1, h2, h3⟩

/-- C16 (null queues and the poll functions): for every messenger, whenever the two poll
functions return, `hasMessageWaiting()` is true exactly when `getNumMessages() > 0`;
`getNumMessages()` is the size of the inbound queue; with a null inbound queue they return
false and 0; with a null outbound queue `sendMessage( m )` changes nothing, and with an
outbound queue it appends exactly `m` at the tail of that queue. -/
theorem poll_and_send (self : Messenger) (w : Shm) (m : Message) :
    (∀ b k w1 w2, self.hasMessageWaiting w = .ok (b, w1) → self.getNumMessages w = .ok (k, w2) →
      (b = true ↔ 0 < k)) ∧
    (∀ seg name ms, self.mIn = .object seg name → w.load seg name = .ok ⟨ms, false⟩ →
      (self.getNumMessages w).map Prod.fst = .ok ms.length ∧
      (self.hasMessageWaiting w).map Prod.fst = .ok (decide (0 < ms.length))) ∧
    (self.mIn = .null →
      self.hasMessageWaiting w = .ok (false, w) ∧ self.getNumMessages w = .ok (0, w)) ∧
    (self.mOut = .null → self.sendMessage m w = .ok w) ∧
    (∀ seg name ms, self.mOut = .object seg name → w.load seg name = .ok ⟨ms, false⟩ →
      self.sendMessage m w = .ok (w.store seg name ⟨ms ++ [m], false⟩) ∧
      (w.store seg name ⟨ms ++ [m], false⟩).load seg name = .ok ⟨ms ++ [m], false⟩) := by
  refine ⟨?_, ?_, ?_, ?_, ?_⟩
  · intro b k w1 w2 h1 h2
    cases hp : self.mIn with
    | indeterminate => simp [Messenger.hasMessageWaiting, Shm.call, hp] at h1
    | null =>
      simp only [Messenger.hasMessageWaiting, Messenger.getNumMessages, Shm.call, hp,
        Except.ok.injEq, Prod.mk.injEq] at h1 h2
      rw [← h1.1, ← h2.1]
      simp
    | object seg name =>
      cases hq : w.load seg name with
      | error e => simp [Messenger.hasMessageWaiting, Shm.call, hp, hq, bind, Except.bind] at h1
      | ok q =>
        obtain ⟨ms, mu⟩ := q
        cases mu with
        | true =>
          simp [Messenger.hasMessageWaiting, Shm.call, hp, hq, bind, Except.bind,
            MessageQueue.size, MessageQueue.lock] at h1
        | false =>
          simp only [Messenger.hasMessageWaiting, Messenger.getNumMessages, Shm.call, hp, hq,
            bind, Except.bind, MessageQueue.size_free, pure, Except.pure, Except.ok.injEq,
            Prod.mk.injEq] at h1 h2
          rw [← h1.1, ← h2.1]
          simp [Nat.pos_iff_ne_zero]
  · intro seg name ms hin hq
    refine ⟨Messenger.getNumMessages_object self w seg name ms hin hq, ?_⟩
    rw [Messenger.hasMessageWaiting_object self w seg name ms hin hq]
    congr 1
    cases ms <;> simp
  · intro h
    simp only [Messenger.hasMessageWaiting, Messenger.getNumMessages, Shm.call, h, and_self]
  · intro h
    simp only [Messenger.sendMessage, Shm.call, h, bind, Except.bind]
    rfl
  · intro seg name ms hout hq
    exact ⟨Messenger.sendMessage_object self m w seg name ms hout hq,
      Shm.load_store_same w seg name _ _ hq⟩

/-- Witness of C16: a client of an arena without queues has null pointers, and a client of
an arena with two messages waiting counts them. -/
theorem poll_and_send_witness :
    (Messenger.createClient "y" false bareArena).1 =
      some ⟨some 0, "y", .null, .null, false⟩ ∧
    (⟨some 0, "y", .null, .null, false⟩ : Messenger).getNumMessages bareArena =
      .ok (0, bareArena) ∧
    (⟨some 0, "y", .null, .null, false⟩ : Messenger).sendMessage (Message.create "a") bareArena =
      .ok bareArena ∧
    ((⟨some 0, "x", .object 0 "Server", .object 0 "Clients", false⟩ : Messenger).getNumMessages
      twoWaiting).map Prod.fst = .ok 2 := by
  have h1 := poll_and_send ⟨some 0, "y", .null, .null, false⟩ bareArena (Message.create "a")
  have h2 := poll_and_send ⟨some 0, "x", .object 0 "Server", .object 0 "Clients", false⟩
    twoWaiting (Message.create "a")
  exact ⟨by decide, (h1.2.2.1 rfl).2, h1.2.2.2.1 rfl,
    (h2.2.1 0 "Server" [(Message.create "a").addIntArg 42, Message.create "b"] rfl
      (by decide)).1⟩

/-- C17 (ownership): destroying a messenger made by `createServer` unregisters the arena of
its name, and only that name; destroying a messenger made by `createClient` leaves the shared
memory as it is: the registered arenas and what they hold. -/
theorem destroy_removes_iff_server (segmentName : String) (denied : Bool) (w0 w : Shm) :
    (∃ server w1, Messenger.createServer segmentName denied w0 = (some server, w1) ∧
      server.mShouldReleaseMemory = true ∧
      (server.destroy w).names.lookup (c_str segmentName) = none ∧
      (∀ other, other ≠ c_str segmentName →
        (server.destroy w).names.lookup other = w.names.lookup other) ∧
      (server.destroy w).segments = w.segments) ∧
    (∃ client w1, Messenger.createClient segmentName denied w0 = (some client, w1) ∧
      client.mShouldReleaseMemory = false ∧ client.destroy w = w) := by
  constructor
  · obtain ⟨server, w1, h1, h2, h3⟩ := Messenger.createServer_handle segmentName denied w0
    refine ⟨server, w1, h1, h3, ?_, ?_, ?_⟩
    · simp only [Messenger.destroy, h3, if_true, h2, Shm.remove]
      exact lookup_filter_ne _ _
    · intro other ho
      simp only [Messenger.destroy, h3, if_true, h2, Shm.remove]
      exact lookup_filter_other _ _ ho _
    · simp only [Messenger.destroy, h3, if_true, Shm.remove]
  · obtain ⟨client, h1, _, h3⟩ := Messenger.createClient_handle segmentName denied w0
    refine ⟨client, w0, h1, h3, ?_⟩
    simp [Messenger.destroy, h3]

/-- Witness of C17: the server of the arena "x" ends while the arena is registered. -/
theorem destroy_removes_iff_server_witness :
    twoWaiting.names.lookup "x" = some 0 ∧
    ∃ server w1, Messenger.createServer "x" false ⟨[], []⟩ = (some server, w1) ∧
      (server.destroy twoWaiting).names.lookup (c_str "x") = none := by
  obtain ⟨⟨server, w1, h1, _, h2, _⟩, _⟩ :=
    destroy_removes_iff_server "x" false ⟨[], []⟩ twoWaiting
  exact ⟨by decide, server, w1, h1, h2⟩

theorem set_decomp {α : Type} : ∀ (l : List α) (t : Nat) (p : α), l[t]? = some p →
    ∃ pre post, l = pre ++ p :: post ∧ ∀ p1, l.set t p1 = pre ++ p1 :: post := by
  intro l
  induction l with
  | nil => intro t p h; simp at h
  | cons a l ih =>
    intro t p h
    cases t with
    | zero =>
      simp at h
      subst h
      exact ⟨[], l, rfl, fun _ => rfl⟩
    | succ t =>
      simp at h
      obtain ⟨pre, post, h1, h2⟩ := ih t p h
      refine ⟨a :: pre, post, by rw [h1]; rfl, ?_⟩
      intro p1
      simp [List.set, h2]

/-- The invariant written for a list of callers with one caller singled out. -/
theorem PushState.Inv_focus (base messages : List Message) (q : MessageQueue)
    (pre post : List Pusher) (m : Message) (pc : PushPc) :
    PushState.Inv base messages ⟨q, pre ++ ⟨m, pc⟩ :: post⟩ ↔
      (pre.map Pusher.message ++ m :: post.map Pusher.message = messages ∧
       pre.countP (fun p => p.pc.holds) + (if pc.holds then 1 else 0) +
          post.countP (fun p => p.pc.holds) = (if q.mMutex then 1 else 0) ∧
       ((∀ p ∈ pre, ∀ seen, p.pc = .reading seen → seen = q.mMessages) ∧
        (∀ seen, pc = .reading seen → seen = q.mMessages) ∧
        (∀ p ∈ post, ∀ seen, p.pc = .reading seen → seen = q.mMessages)) ∧
       q.mMessages.Perm (base ++ ((pre.filter (fun p => p.pc.pushed)).map Pusher.message ++
          ((if pc.pushed then [m] else []) ++
            (post.filter (fun p => p.pc.pushed)).map Pusher.message)))) := by
  unfold PushState.Inv
  simp only [List.map_append, List.map_cons, List.countP_append, List.countP_cons,
    List.filter_append, List.filter_cons, List.mem_append, List.mem_cons]
  constructor
  · rintro ⟨h1, h2, h3, h4⟩
    refine ⟨h1, by omega, ⟨fun p hp => h3 p (Or.inl hp), ?_, fun p hp => h3 p (Or.inr (Or.inr hp))⟩, ?_⟩
    · intro seen hs
      exact h3 ⟨m, pc⟩ (Or.inr (Or.inl rfl)) seen hs
    · cases hpc : pc.pushed <;> simpa [hpc] using h4
  · rintro ⟨h1, h2, ⟨h3a, h3b, h3c⟩, h4⟩
    refine ⟨h1, by omega, ?_, ?_⟩
    · intro p hp seen hs
      rcases hp with hp | hp | hp
      · exact h3a p hp seen hs
      · subst hp; exact h3b seen hs
      · exact h3c p hp seen hs
    · cases hpc : pc.pushed <;> simpa [hpc] using h4

theorem holds_start : PushPc.start.holds = false := rfl
theorem holds_locked : PushPc.locked.holds = true := rfl
theorem holds_reading (seen : List Message) : (PushPc.reading seen).holds = true := rfl
theorem holds_written : PushPc.written.holds = true := rfl
theorem holds_done : PushPc.done.holds = false := rfl
theorem pushed_start : PushPc.start.pushed = false := rfl
theorem pushed_locked : PushPc.locked.pushed = false := rfl
theorem pushed_reading (seen : List Message) : (PushPc.reading seen).pushed = false := rfl
theorem pushed_written : PushPc.written.pushed = true := rfl
theorem pushed_done : PushPc.done.pushed = true := rfl

theorem countP_holds_zero (ps : List Pusher) (h : ps.countP (fun p => p.pc.holds) = 0) :
    ∀ p ∈ ps, ∀ seen, p.pc ≠ .reading seen := by
  intro p hp seen hs
  have := (List.countP_eq_zero.mp h) p hp
  rw [hs] at this
  simp [PushPc.holds] at this

/-- One step of the scheduler keeps the invariant. -/
theorem PushState.Inv_step (base messages : List Message) (s : PushState) (t : Nat)
    (h : PushState.Inv base messages s) : PushState.Inv base messages (s.step t) := by
  obtain ⟨q, ps⟩ := s
  obtain ⟨ms, mu⟩ := q
  unfold PushState.step
  simp only
  cases hp : ps[t]? with
  | none => exact h
  | some p =>
    obtain ⟨pre, post, hl, hset⟩ := set_decomp ps t p hp
    subst hl
    obtain ⟨m, pc⟩ := p
    rw [PushState.Inv_focus] at h
    obtain ⟨h1, h2, ⟨h3a, h3b, h3c⟩, h4⟩ := h
    simp only at h2 h3a h3b h3c h4
    cases pc with
    | start =>
      cases mu with
      | true =>
        simp only [Pusher.step, MessageQueue.lock, if_true]
        rw [PushState.Inv_focus]
        exact ⟨h1, h2, ⟨h3a, h3b, h3c⟩, h4⟩
      | false =>
        simp only [Pusher.step, MessageQueue.lock, Bool.false_eq_true, if_false, hset]
        rw [PushState.Inv_focus]
        simp only [holds_start, holds_locked, holds_reading, holds_written, holds_done,
        pushed_start, pushed_locked, pushed_reading, pushed_written, pushed_done, Bool.false_eq_true, if_false, if_true,
          Nat.add_zero] at h2 h4 ⊢
        refine ⟨h1, by omega, ⟨?_, ?_, ?_⟩, h4⟩
        · intro p hp seen hs
          exact absurd hs (countP_holds_zero pre (by omega) p hp seen)
        · intro seen hs
          cases hs
        · intro p hp seen hs
          exact absurd hs (countP_holds_zero post (by omega) p hp seen)
    | locked =>
      simp only [Pusher.step, hset]
      rw [PushState.Inv_focus]
      simp only [holds_start, holds_locked, holds_reading, holds_written, holds_done,
        pushed_start, pushed_locked, pushed_reading, pushed_written, pushed_done, Bool.false_eq_true, if_false, if_true] at h2 h4 ⊢
      refine ⟨h1, h2, ⟨h3a, ?_, h3c⟩, h4⟩
      intro seen hs
      simp only [PushPc.reading.injEq] at hs
      exact hs.symm
    | reading seen0 =>
      have hseen : seen0 = ms := h3b seen0 rfl
      subst hseen
      simp only [Pusher.step, hset]
      rw [PushState.Inv_focus]
      simp only [holds_start, holds_locked, holds_reading, holds_written, holds_done,
        pushed_start, pushed_locked, pushed_reading, pushed_written, pushed_done, Bool.false_eq_true, if_false, if_true,
        List.nil_append, List.singleton_append] at h2 h4 ⊢
      have hmu : mu = true := by
        cases mu with
        | true => rfl
        | false => simp at h2
      subst hmu
      simp only [if_true] at h2
      refine ⟨h1, h2, ⟨?_, ?_, ?_⟩, ?_⟩
      · intro p hp seen hs
        exact absurd hs (countP_holds_zero pre (by omega) p hp seen)
      · intro seen hs
        cases hs
      · intro p hp seen hs
        exact absurd hs (countP_holds_zero post (by omega) p hp seen)
      · have hA : (seen0 ++ [m]).Perm (m :: seen0) := List.perm_append_singleton m seen0
        have hB := h4.cons m
        have hC : (base ++ (List.map Pusher.message (List.filter (fun p => p.pc.pushed) pre) ++
            m :: List.map Pusher.message (List.filter (fun p => p.pc.pushed) post))).Perm
            (m :: (base ++ (List.map Pusher.message (List.filter (fun p => p.pc.pushed) pre) ++
              List.map Pusher.message (List.filter (fun p => p.pc.pushed) post)))) := by
          rw [← List.append_assoc, ← List.append_assoc]
          exact List.perm_middle
        exact (hA.trans hB).trans hC.symm
    | written =>
      simp only [Pusher.step, hset, MessageQueue.unlock]
      rw [PushState.Inv_focus]
      simp only [holds_start, holds_locked, holds_reading, holds_written, holds_done,
        pushed_start, pushed_locked, pushed_reading, pushed_written, pushed_done, Bool.false_eq_true, if_false, if_true] at h2 h4 ⊢
      have hmu : mu = true := by
        cases mu with
        | true => rfl
        | false => simp at h2
      subst hmu
      simp only [if_true] at h2
      refine ⟨h1, by omega, ⟨?_, ?_, ?_⟩, h4⟩
      · intro p hp seen hs
        exact absurd hs (countP_holds_zero pre (by omega) p hp seen)
      · intro seen hs
        cases hs
      · intro p hp seen hs
        exact absurd hs (countP_holds_zero post (by omega) p hp seen)
    | done =>
      simp only [Pusher.step]
      rw [PushState.Inv_focus]
      exact ⟨h1, h2, ⟨h3a, h3b, h3c⟩, h4⟩

theorem PushState.Inv_init (base messages : List Message) :
    PushState.Inv base messages (PushState.init ⟨base, false⟩ messages) := by
  refine ⟨?_, ?_, ?_, ?_⟩
  · simp [PushState.init, Function.comp_def]
  · simp [PushState.init, List.countP_map, Function.comp_def, PushPc.holds]
  · intro p hp seen hs
    simp only [PushState.init, List.mem_map] at hp
    obtain ⟨m, _, rfl⟩ := hp
    cases hs
  · have : (List.map (fun m => (⟨m, .start⟩ : Pusher)) messages).filter
        (fun p => p.pc.pushed) = [] := by
      rw [List.filter_eq_nil_iff]
      intro p hp
      simp only [List.mem_map] at hp
      obtain ⟨m, _, rfl⟩ := hp
      simp [PushPc.pushed]
    simp [PushState.init, this]

theorem PushState.Inv_run (base messages : List Message) (schedule : List Nat) :
    ∀ s : PushState, PushState.Inv base messages s →
      PushState.Inv base messages (s.run schedule) := by
  induction schedule with
  | nil => intro s h; exact h
  | cons t ts ih =>
    intro s h
    exact ih (s.step t) (PushState.Inv_step base messages s t h)

theorem PushState.finished_iff (s : PushState) :
    s.finished = true ↔ ∀ p ∈ s.pushers, p.pc = .done := by
  simp [PushState.finished, List.all_eq_true]

/-- In a state of a run in which every caller has returned, the deque holds the first
messages and the messages of the callers, each once, and the mutex is free. -/
theorem PushState.Inv_finished (base messages : List Message) (s : PushState)
    (h : PushState.Inv base messages s) (hf : s.finished = true) :
    s.queue.mMessages.Perm (base ++ messages) ∧ s.queue.mMutex = false := by
  obtain ⟨h1, h2, _, h4⟩ := h
  rw [PushState.finished_iff] at hf
  have hall : s.pushers.filter (fun p => p.pc.pushed) = s.pushers := by
    rw [List.filter_eq_self]
    intro p hp
    rw [hf p hp]
    rfl
  rw [hall, h1] at h4
  refine ⟨h4, ?_⟩
  have hz : s.pushers.countP (fun p => p.pc.holds) = 0 := by
    rw [List.countP_eq_zero]
    intro p hp
    rw [hf p hp]
    simp [holds_done]
  rw [hz] at h2
  cases hm : s.queue.mMutex with
  | false => rfl
  | true => rw [hm] at h2; simp at h2

/-- In a state of a run some caller can move, unless all have returned: no caller waits for
a mutex that nobody will release. -/
theorem PushState.Inv_progress (base messages : List Message) (s : PushState)
    (h : PushState.Inv base messages s) (hf : s.finished = false) :
    ∃ t, s.enabled t = true := by
  obtain ⟨_, h2, _, _⟩ := h
  obtain ⟨q, ps⟩ := s
  obtain ⟨ms, mu⟩ := q
  simp only at h2
  cases mu with
  | true =>
    simp only [if_true] at h2
    have hpos : 0 < ps.countP (fun p => p.pc.holds) := by omega
    obtain ⟨p, hp, hh⟩ := List.countP_pos_iff.mp hpos
    obtain ⟨t, ht⟩ := List.getElem?_of_mem hp
    refine ⟨t, ?_⟩
    obtain ⟨m, pc⟩ := p
    simp only [PushState.enabled, ht]
    cases pc <;> simp_all [Pusher.step, holds_start, holds_done]
  | false =>
    simp only [Bool.false_eq_true, if_false] at h2
    have hnot : ¬ (∀ p ∈ ps, p.pc = .done) := by
      intro hall
      have := (PushState.finished_iff ⟨⟨ms, false⟩, ps⟩).mpr hall
      rw [hf] at this
      cases this
    simp only [not_forall] at hnot
    obtain ⟨p, hp, hne⟩ := hnot
    have hh : p.pc.holds = false := by
      have := (List.countP_eq_zero.mp h2) p hp
      simpa using this
    obtain ⟨t, ht⟩ := List.getElem?_of_mem hp
    refine ⟨t, ?_⟩
    obtain ⟨m, pc⟩ := p
    simp only [PushState.enabled, ht]
    cases pc with
    | start => rfl
    | locked => simp [holds_locked] at hh
    | reading seen => simp [holds_reading] at hh
    | written => simp [holds_written] at hh
    | done => exact absurd rfl hne

/-- A step of a caller that can move takes one of the steps that remain. -/
theorem PushState.remaining_step (s : PushState) (t : Nat) (h : s.enabled t = true) :
    (s.step t).remaining + 1 = s.remaining := by
  obtain ⟨q, ps⟩ := s
  unfold PushState.enabled at h
  unfold PushState.step
  simp only at h ⊢
  cases hp : ps[t]? with
  | none => rw [hp] at h; cases h
  | some p =>
    rw [hp] at h
    simp only at h
    obtain ⟨pre, post, hl, hset⟩ := set_decomp ps t p hp
    subst hl
    cases hs : p.step q with
    | none => rw [hs] at h; cases h
    | some r =>
      obtain ⟨p1, q1⟩ := r
      simp only [hs, hset, PushState.remaining, List.map_append, List.map_cons,
        List.sum_append, List.sum_cons]
      have hrem : p1.pc.remaining + 1 = p.pc.remaining := by
        obtain ⟨m, pc⟩ := p
        obtain ⟨ms, mu⟩ := q
        cases pc with
        | start =>
          cases mu with
          | true => simp [Pusher.step, MessageQueue.lock] at hs
          | false =>
            simp only [Pusher.step, MessageQueue.lock, Bool.false_eq_true, if_false,
              Option.some.injEq, Prod.mk.injEq] at hs
            rw [← hs.1]
            rfl
        | locked =>
          simp only [Pusher.step, Option.some.injEq, Prod.mk.injEq] at hs
          rw [← hs.1]
          rfl
        | reading seen =>
          simp only [Pusher.step, Option.some.injEq, Prod.mk.injEq] at hs
          rw [← hs.1]
          rfl
        | written =>
          simp only [Pusher.step, Option.some.injEq, Prod.mk.injEq] at hs
          rw [← hs.1]
          rfl
        | done => simp [Pusher.step] at hs
      omega

/-- Every state of a run can be continued until all callers have returned. -/
theorem PushState.Inv_complete (base messages : List Message) (n : Nat) :
    ∀ s : PushState, PushState.Inv base messages s → s.remaining = n →
      ∃ more, (s.run more).finished = true := by
  induction n with
  | zero =>
    intro s h hn
    cases hf : s.finished with
    | true => exact ⟨[], hf⟩
    | false =>
      obtain ⟨t, ht⟩ := PushState.Inv_progress base messages s h hf
      have := PushState.remaining_step s t ht
      omega
  | succ n ih =>
    intro s h hn
    cases hf : s.finished with
    | true => exact ⟨[], hf⟩
    | false =>
      obtain ⟨t, ht⟩ := PushState.Inv_progress base messages s h hf
      have hr := PushState.remaining_step s t ht
      obtain ⟨more, hm⟩ := ih (s.step t) (PushState.Inv_step base messages s t h) (by omega)
      exact ⟨t :: more, hm⟩

/-- A caller that runs alone does what `push_back` does. -/
theorem PushState.alone_push_back (q : MessageQueue) (m : Message) (hfree : q.mMutex = false) :
    ∃ q1, q.push_back m = .ok q1 ∧
      (PushState.init q [m]).run [0, 0, 0, 0] = ⟨q1, [⟨m, .done⟩]⟩ := by
  obtain ⟨ms, mu⟩ := q
  simp only at hfree
  subst hfree
  exact ⟨_, rfl, rfl⟩

/-- On a held mutex `push_back` waits: the call does not return while nobody releases the
mutex, and the first step of a caller cannot be taken. -/
theorem PushState.held_push_back (q : MessageQueue) (m : Message) (hheld : q.mMutex = true) :
    q.push_back m = .error .deadlock ∧ Pusher.step ⟨m, .start⟩ q = none := by
  obtain ⟨ms, mu⟩ := q
  simp only at hheld
  subst hheld
  exact ⟨rfl, rfl⟩

/-- A caller alone with a held mutex never moves, whatever the schedule. -/
theorem PushState.alone_waits (q : MessageQueue) (m : Message) (hheld : q.mMutex = true)
    (schedule : List Nat) : (PushState.init q [m]).run schedule = PushState.init q [m] := by
  obtain ⟨ms, mu⟩ := q
  simp only at hheld
  subst hheld
  induction schedule with
  | nil => rfl
  | cons t ts ih =>
    have hstep : (PushState.init ⟨ms, true⟩ [m]).step t = PushState.init ⟨ms, true⟩ [m] := by
      cases t with
      | zero => rfl
      | succ t => rfl
    show ((PushState.init ⟨ms, true⟩ [m]).step t).run ts = _
    rw [hstep]
    exact ih

/-- While a caller of a run is between taking and releasing the mutex, the mutex is held, so
`push_back` on the queue waits. -/
theorem PushState.Inv_excludes (base messages : List Message) (s : PushState)
    (h : PushState.Inv base messages s) (p : Pusher) (hp : p ∈ s.pushers)
    (hh : p.pc.holds = true) (m : Message) :
    s.queue.mMutex = true ∧ s.queue.push_back m = .error .deadlock := by
  obtain ⟨_, h2, _, _⟩ := h
  have hpos : 0 < s.pushers.countP (fun p => p.pc.holds) :=
    List.countP_pos_iff.mpr ⟨p, hp, hh⟩
  have hmu : s.queue.mMutex = true := by
    cases hm : s.queue.mMutex with
    | true => rfl
    | false =>
      rw [hm] at h2
      simp only [Bool.false_eq_true, if_false] at h2
      omega
  exact ⟨hmu, (PushState.held_push_back s.queue m hmu).1⟩

/-! ## Claim on concurrent pushes -/

/-- C18 (concurrent push integrity): for every number of concurrent callers (threads or
processes) that each call `push_back` once on the same new queue, and for every interleaving
of their steps: once all have returned the queue holds exactly their messages, each as often
as it was pushed (once each when the messages differ), and the mutex is free; every
interleaving can be continued until all have returned.  The steps are those of
`MessageQueue.push_back`: on a free mutex a caller that runs alone does what `push_back`
does; on a held mutex `push_back` does not return and the caller does not move, whatever the
schedule; and in every state of an interleaving in which a caller is between taking and
releasing the mutex, the mutex is held and `push_back` on the queue waits. -/
theorem concurrent_push_integrity (messages : List Message) (schedule : List Nat) :
    (((PushState.init MessageQueue.create messages).run schedule).finished = true →
      ((PushState.init MessageQueue.create messages).run schedule).queue.mMessages.Perm
        messages ∧
      ((PushState.init MessageQueue.create messages).run schedule).queue.mMessages.length =
        messages.length ∧
      (∀ m, ((PushState.init MessageQueue.create messages).run schedule).queue.mMessages.count
        m = messages.count m) ∧
      (messages.Nodup →
        ((PushState.init MessageQueue.create messages).run schedule).queue.mMessages.Nodup) ∧
      ((PushState.init MessageQueue.create messages).run schedule).queue.mMutex = false) ∧
    (∃ more,
      ((PushState.init MessageQueue.create messages).run (schedule ++ more)).finished = true) ∧
    (∀ (q : MessageQueue) (m : Message), q.mMutex = false →
      ∃ q1, q.push_back m = .ok q1 ∧
        (PushState.init q [m]).run [0, 0, 0, 0] = ⟨q1, [⟨m, .done⟩]⟩) ∧
    (∀ (q : MessageQueue) (m : Message), q.mMutex = true →
      q.push_back m = .error .deadlock ∧ Pusher.step ⟨m, .start⟩ q = none ∧
      ∀ alone : List Nat, (PushState.init q [m]).run alone = PushState.init q [m]) ∧
    (∀ (p : Pusher) (m : Message),
      p ∈ ((PushState.init MessageQueue.create messages).run schedule).pushers →
      p.pc.holds = true →
      ((PushState.init MessageQueue.create messages).run schedule).queue.mMutex = true ∧
      ((PushState.init MessageQueue.create messages).run schedule).queue.push_back m =
        .error .deadlock) := by
  have hinv := PushState.Inv_run [] messages schedule _ (PushState.Inv_init [] messages)
  refine ⟨?_, ?_, PushState.alone_push_back, ?_, ?_⟩
  · intro hf
    obtain ⟨hperm, hmu⟩ := PushState.Inv_finished [] messages _ hinv hf
    simp only [List.nil_append] at hperm
    exact ⟨hperm, hperm.length_eq, fun m => hperm.count_eq m, fun hn => hperm.nodup_iff.mpr hn,
      hmu⟩
  · obtain ⟨more, hm⟩ := PushState.Inv_complete [] messages _ _ hinv rfl
    refine ⟨more, ?_⟩
    simpa [PushState.run, List.foldl_append] using hm
  · intro q m hheld
    exact ⟨(PushState.held_push_back q m hheld).1, (PushState.held_push_back q m hheld).2,
      PushState.alone_waits q m hheld⟩
  · intro p m hp hh
    exact PushState.Inv_excludes [] messages _ hinv p hp hh m

/-- Witness of C18: three callers interleaved; the second has to wait for the first, the
third for the second. -/
theorem concurrent_push_integrity_witness :
    ((PushState.init MessageQueue.create
        [Message.create "a", Message.create "b", Message.create "c"]).run
      [0, 1, 2, 0, 1, 0, 2, 0, 1, 1, 2, 1, 1, 2, 2, 2, 2]).finished = true ∧
    ((PushState.init MessageQueue.create
        [Message.create "a", Message.create "b", Message.create "c"]).run
      [0, 1, 2, 0, 1, 0, 2, 0, 1, 1, 2, 1, 1, 2, 2, 2, 2]).queue.mMessages.Perm
      [Message.create "a", Message.create "b", Message.create "c"] :=
  ⟨by decide,
    ((concurrent_push_integrity [Message.create "a", Message.create "b", Message.create "c"]
      [0, 1, 2, 0, 1, 0, 2, 0, 1, 1, 2, 1, 1, 2, 2, 2, 2]).1 (by decide)).1⟩

/-! ## A float argument read as an integer -/

theorem stoi_c_str (s : String) : stoi (c_str s) = stoi s := by
  simp only [stoi, c_str, c_chars_idem]

/-- Reading with `stoi` a text made of an optional minus sign, digits, and a rest that does
not start with a digit: the number before the rest, or `std::out_of_range`. -/
theorem stoi_signed_digits_eval (neg : Bool) (ds r : List Char) (h : AllDigits ds)
    (hne : ds ≠ []) (hr : NoDigitHead r) :
    stoi ⟨if neg then '-' :: (ds ++ r) else ds ++ r⟩ =
      if (if neg then -(digitsValue ds : Int) else (digitsValue ds : Int)) < INT32_MIN ∨
          INT32_MAX < (if neg then -(digitsValue ds : Int) else (digitsValue ds : Int)) then
        .error .std_out_of_range
      else .ok (if neg then -(digitsValue ds : Int) else (digitsValue ds : Int)) := by
  obtain ⟨a, tl, rfl⟩ := List.exists_cons_of_ne_nil hne
  obtain ⟨d, hd, rfl⟩ := h _ (List.mem_cons_self _ _)
  have htake := takeWhile_isDigit_append _ _ h hr.of_c_chars
  have hc : c_chars ((digitChar d :: tl) ++ r) = (digitChar d :: tl) ++ c_chars r :=
    c_chars_append _ _ h.ne_NUL
  cases neg with
  | false =>
    simp only [stoi, Bool.false_eq_true, if_false, hc]
    rw [List.cons_append, dropWhile_isspace_digit d hd, splitSign_digit d hd]
    simp only [← List.cons_append, htake]
    simp
  | true =>
    have hc2 : c_chars ('-' :: ((digitChar d :: tl) ++ r)) =
        '-' :: ((digitChar d :: tl) ++ c_chars r) := by
      have := c_chars_append ['-'] ((digitChar d :: tl) ++ r)
        (by intro c hc; simp at hc; subst hc; rfl)
      rw [hc] at this
      exact this
    have hds : ('-' :: ((digitChar d :: tl) ++ c_chars r)).dropWhile isspace =
        '-' :: ((digitChar d :: tl) ++ c_chars r) := by
      rw [List.dropWhile_cons]
      rfl
    have hss : splitSign ('-' :: ((digitChar d :: tl) ++ c_chars r)) =
        (true, (digitChar d :: tl) ++ c_chars r) := rfl
    simp only [stoi, if_true, hc2, hds, hss, htake]
    simp

theorem Message.getArgAsInt32_float (L : FloatLib) (m : Message) (i : Nat) (f : L.Flt)
    (h : m.mArgs[i]? = some (Arg.ofFloat L f)) :
    m.getArgAsInt32 i true = stoi (L.to_string f) := by
  have ht := Message.getArgType_of_getElem m i _ h
  have hv := vectorAt_of_getElem _ _ _ h
  have hget : (Arg.ofFloat L f).get = c_str (L.to_string f) := by
    simp [Arg.get, Arg.ofFloat, c_str_idem]
  simp only [Message.getArgAsInt32, ht, hv]
  show stoi (Arg.ofFloat L f).get = _
  rw [hget, stoi_c_str]

theorem millionthsText_data (f : Int) :
    millionthsText f = ⟨if decide (f < 0) then
        '-' :: (natDigits (f.natAbs / 1000000) ++ '.' :: sixDigits (f.natAbs % 1000000))
      else natDigits (f.natAbs / 1000000) ++ '.' :: sixDigits (f.natAbs % 1000000)⟩ := by
  unfold millionthsText
  by_cases h : f < 0 <;> simp [h]

theorem tdiv_millionths (f : Int) :
    (if decide (f < 0) then -((f.natAbs / 1000000 : Nat) : Int)
      else ((f.natAbs / 1000000 : Nat) : Int)) = f.tdiv 1000000 := by
  rcases f with n | n
  · have : ¬ ((Int.ofNat n) < 0) := not_lt.mpr (Int.ofNat_zero_le n)
    simp only [this, decide_False, Bool.false_eq_true, if_false]
    rfl
  · have : (Int.negSucc n) < 0 := Int.negSucc_lt_zero n
    simp only [this, decide_True, if_true]
    rfl

/-- The sample library: a float read as an integer gives the whole part, cut towards zero,
when it is an `int32_t`, and `std::out_of_range` otherwise. -/
theorem decimalLib_getArgAsInt32 (m : Message) (i : Nat) (g : Int)
    (h : m.mArgs[i]? = some (Arg.ofFloat decimalLib g)) :
    m.getArgAsInt32 i true =
      if isInt32 (g.tdiv 1000000) then .ok (g.tdiv 1000000) else .error .std_out_of_range := by
  rw [Message.getArgAsInt32_float decimalLib m i g h]
  have hspec := natDigits_spec (g.natAbs / 1000000)
  have hpoint : NoDigitHead ('.' :: sixDigits (g.natAbs % 1000000)) := by
    intro c hc; simp at hc; subst hc; rfl
  have := stoi_signed_digits_eval (decide (g < 0)) (natDigits (g.natAbs / 1000000))
    ('.' :: sixDigits (g.natAbs % 1000000)) hspec.2.1 hspec.1 hpoint
  rw [hspec.2.2, tdiv_millionths] at this
  show stoi (millionthsText g) = _
  rw [millionthsText_data, this]
  unfold isInt32
  by_cases h1 : g.tdiv 1000000 < INT32_MIN
  · have : ¬ (INT32_MIN ≤ g.tdiv 1000000 ∧ g.tdiv 1000000 ≤ INT32_MAX) := by
      intro hh; exact absurd hh.1 (not_le.mpr h1)
    simp [h1, this]
  · by_cases h2 : INT32_MAX < g.tdiv 1000000
    · have : ¬ (INT32_MIN ≤ g.tdiv 1000000 ∧ g.tdiv 1000000 ≤ INT32_MAX) := by
        intro hh; exact absurd hh.2 (not_le.mpr h2)
      simp [h2, this]
    · have : INT32_MIN ≤ g.tdiv 1000000 ∧ g.tdiv 1000000 ≤ INT32_MAX :=
        ⟨not_lt.mp h1, not_lt.mp h2⟩
      simp [h1, h2, this]

/-- Counterexample to C19 as stated: the float 10000000000 is stored as the text
"10000000000.000000", and reading it as an integer with conversion throws
`std::out_of_range`, which is not one of the exceptions of the library. -/
theorem getArgAsInt32_float_out_of_range :
    ((Message.create "a").addFloatArg decimalLib (10000000000000000 : Int)).getArgAsString 0
      false = .ok "10000000000.000000" ∧
    ((Message.create "a").addFloatArg decimalLib (10000000000000000 : Int)).getArgAsInt32 0
      true = .error .std_out_of_range := by
  decide

/-- C19, amended: for every message and every valid index `i` whose argument was added with
`addFloatArg`, `getArgAsInt32( i, true )` is `std::stoi` of the stored text: when the text
is a signed run of digits followed by something that is not a digit, the result is that
whole number (the whole part of the float, cut towards zero) if it is an `int32_t`, and the
exception `std::out_of_range` if it is not; an exception, when there is one, is
`std::invalid_argument` or `std::out_of_range` of the standard library, never one of the
two of this library. -/
theorem getArgAsInt32_of_float (L : FloatLib) (m : Message) (i : Nat) (f : L.Flt)
    (h : m.mArgs[i]? = some (Arg.ofFloat L f)) :
    m.getArgAsInt32 i true = stoi (L.to_string f) ∧
    (∀ e, m.getArgAsInt32 i true = .error e →
      e = .std_invalid_argument ∨ e = .std_out_of_range) ∧
    (∀ (neg : Bool) (ds r : List Char), AllDigits ds → ds ≠ [] → NoDigitHead r →
      L.to_string f = ⟨if neg then '-' :: (ds ++ r) else ds ++ r⟩ →
      (isInt32 (if neg then -(digitsValue ds : Int) else (digitsValue ds : Int)) →
        m.getArgAsInt32 i true =
          .ok (if neg then -(digitsValue ds : Int) else (digitsValue ds : Int))) ∧
      (¬ isInt32 (if neg then -(digitsValue ds : Int) else (digitsValue ds : Int)) →
        m.getArgAsInt32 i true = .error .std_out_of_range)) ∧
    (∀ (m1 : Message) (g : Int), m1.mArgs[i]? = some (Arg.ofFloat decimalLib g) →
      m1.getArgAsInt32 i true =
        if isInt32 (g.tdiv 1000000) then .ok (g.tdiv 1000000)
        else .error .std_out_of_range) := by
  have h0 := Message.getArgAsInt32_float L m i f h
  refine ⟨h0, ?_, ?_, fun m1 g hg => decimalLib_getArgAsInt32 m1 i g hg⟩
  · intro e he
    rw [h0] at he
    exact stoi_error _ e he
  · intro neg ds r hall hne hr htext
    rw [h0, htext, stoi_signed_digits_eval neg ds r hall hne hr]
    constructor
    · intro hi
      have h1 : ¬ ((if neg = true then -(digitsValue ds : Int) else (digitsValue ds : Int))
          < INT32_MIN) := not_lt.mpr hi.1
      have h2 : ¬ (INT32_MAX <
          (if neg = true then -(digitsValue ds : Int) else (digitsValue ds : Int))) :=
        not_lt.mpr hi.2
      simp [h1, h2]
    · intro hi
      have h3 : (if neg = true then -(digitsValue ds : Int) else (digitsValue ds : Int))
          < INT32_MIN ∨ INT32_MAX <
          (if neg = true then -(digitsValue ds : Int) else (digitsValue ds : Int)) := by
        by_contra hc
        push_neg at hc
        exact hi ⟨hc.1, hc.2⟩
      rw [if_pos h3]

/-- Witness of C19, amended: the float 3.5 read as an integer is 3, and -3.5 is -3. -/
theorem getArgAsInt32_of_float_witness :
    ((Message.create "a").addFloatArg decimalLib (3500000 : Int)).mArgs[0]? =
      some (Arg.ofFloat decimalLib (3500000 : Int)) ∧
    ((Message.create "a").addFloatArg decimalLib (3500000 : Int)).getArgAsInt32 (0 : Nat)
      true = stoi "3.500000" ∧
    ((Message.create "a").addFloatArg decimalLib (-3500000 : Int)).getArgAsInt32 (0 : Nat)
      true = .ok (-3) := by
  have h1 := getArgAsInt32_of_float decimalLib
    ((Message.create "a").addFloatArg decimalLib (3500000 : Int)) 0 (3500000 : Int) rfl
  refine ⟨rfl, h1.1, ?_⟩
  have h2 := h1.2.2.2 ((Message.create "a").addFloatArg decimalLib (-3500000 : Int))
    (-3500000 : Int) rfl
  rw [h2]
  decide

end SharedMemory
